import Mathlib

/-!
Shallow embedding of the structurizr VS Code extension's parser
(src/parser.ts) and diagnostic engine (src/diagnostics.ts, extended
version with ten checks), together with proofs about the claims of the
specification.

Lines are modelled as lists of characters; a document is split on the
newline character exactly as the source does with text.split("\n").
The regular expressions of the source are hand-translated to
deterministic matchers.  Every pattern of the source anchors at the
start (after optional whitespace) and its alternations are prefix-free,
so first-alternative, maximal-munch matching coincides with the
backtracking semantics of the JavaScript regex engine; the few places
where an optional group can fail late (the optional "id =" prefix, the
optional view scope) are translated with an explicit fallback attempt,
mirroring the backtracking order.
-/

namespace XS

/-- JS whitespace class (the characters relevant to this codebase). -/
def isWs (c : Char) : Bool :=
  c = ' ' || c = '\t' || c = '\n' || c = '\r' || c = '\x0b' || c = '\x0c'

/-- JS word-character class: [A-Za-z0-9_]. -/
def isWordChar (c : Char) : Bool :=
  ('a' ≤ c && c ≤ 'z') || ('A' ≤ c && c ≤ 'Z') || ('0' ≤ c && c ≤ '9') || c = '_'

/-- ASCII lower-casing of one character (JS toLowerCase on this ASCII corpus). -/
def lowerChar (c : Char) : Char :=
  if 'A' ≤ c && c ≤ 'Z' then Char.ofNat (c.toNat + 32) else c

def lowerStr (s : String) : String := String.mk (s.data.map lowerChar)

/-- A source line, as a list of characters. -/
abbrev Line := List Char

/-- text.split("\n") on character lists: an empty text gives one empty
line, every newline separates (a trailing newline yields a final empty
line), exactly as JS String.prototype.split. -/
def splitNl : List Char → List Char → List Line
  | [], cur => [cur.reverse]
  | '\n' :: rest, cur => cur.reverse :: splitNl rest []
  | c :: rest, cur => splitNl rest (c :: cur)

/-- text.split("\n") -/
def toLines (text : String) : List Line := splitNl text.data []

/-- JS String.prototype.trim. -/
def trimL (l : Line) : Line := ((l.dropWhile isWs).reverse.dropWhile isWs).reverse

/-- JS String.prototype.trimEnd. -/
def trimEndL (l : Line) : Line := (l.reverse.dropWhile isWs).reverse

def dropWsL (l : Line) : Line := l.dropWhile isWs

/-- Does the line start with at least one whitespace character (regex \s+)? -/
def hasWs1 (l : Line) : Bool :=
  match l with
  | c :: _ => isWs c
  | [] => false

/-- Maximal run of word characters (regex \w+); fails on an empty run. -/
def takeWord (l : Line) : Option (List Char × Line) :=
  let w := l.takeWhile isWordChar
  if w.isEmpty then none else some (w, l.dropWhile isWordChar)

/-- Match a literal pattern case-insensitively, returning the consumed
input characters (captures keep the input's case) and the rest. -/
def litCI : List Char → Line → Option (List Char × Line)
  | [], l => some ([], l)
  | _ :: _, [] => none
  | p :: ps, c :: cs =>
    if lowerChar c = lowerChar p then
      match litCI ps cs with
      | some (w, rest) => some (c :: w, rest)
      | none => none
    else none

/-- Regex word boundary after a word character: next char absent or non-word. -/
def boundaryOk (l : Line) : Bool :=
  match l with
  | c :: _ => !isWordChar c
  | [] => true

/-- Match `"([^"]*)"`: an opening quote, the capture (no escape handling in
these regexes), and a mandatory closing quote. -/
def takeQuoted (l : Line) : Option (List Char × Line) :=
  match l with
  | '"' :: rest =>
    let body := rest.takeWhile (fun c => c ≠ '"')
    match rest.dropWhile (fun c => c ≠ '"') with
    | '"' :: rest2 => some (body, rest2)
    | _ => none
  | _ => none

/-- First alternative of a prefix-free, case-insensitive alternation that
matches; returns consumed input text and the rest. -/
def altCI (alts : List String) (l : Line) : Option (List Char × Line) :=
  match alts with
  | [] => none
  | a :: rest =>
    match litCI a.data l with
    | some r => some r
    | none => altCI rest l

/-- JS String.prototype.indexOf starting at position k (normally 0). -/
def indexOfAux (l sub : Line) (k : Nat) : Int :=
  if sub.isPrefixOf l then (k : Int)
  else
    match l with
    | [] => -1
    | _ :: t => indexOfAux t sub (k + 1)

def jsIndexOf (l sub : Line) : Int := indexOfAux l sub 0

def jsIndexOfFrom (l sub : Line) (start : Int) : Int :=
  indexOfAux (l.drop start.toNat) sub start.toNat

/-- substring containment (JS String.prototype.includes). -/
def containsSub (l sub : Line) : Bool := l.tails.any (fun t => sub.isPrefixOf t)

def strContains (s sub : String) : Bool := containsSub s.data sub.data

def strContainsCI (s sub : String) : Bool :=
  containsSub (s.data.map lowerChar) (sub.data.map lowerChar)

/-! ## The parser (src/parser.ts) -/

/-- The element-type keyword alternation, in source order. -/
def elementKeywords : List String :=
  ["person", "softwareSystem", "softwaresystem", "container", "component",
   "deploymentNode", "deploymentEnvironment", "infrastructureNode", "group"]

/-- The view-type keyword alternation, in source order. -/
def viewKeywords : List String :=
  ["systemLandscape", "systemContext", "container", "component",
   "deployment", "dynamic", "filtered", "custom"]

structure ParsedElement where
  identifier : String
  type : String
  name : String
  line : Nat
  deriving DecidableEq, Repr

structure ParsedRelationship where
  source : String
  target : String
  description : Option String
  technology : Option String
  line : Nat
  deriving DecidableEq, Repr

structure ParsedView where
  type : String
  scope : Option String
  key : Option String
  line : Nat
  deriving DecidableEq, Repr

structure ParsedWorkspace where
  name : Option String
  elements : List ParsedElement
  relationships : List ParsedRelationship
  views : List ParsedView
  deriving DecidableEq, Repr

/-- /^workspace\s+"([^"]*)"/i on the trimmed line. -/
def wsNameMatch (t : Line) : Option String :=
  match litCI "workspace".data t with
  | some (_, r1) =>
    if hasWs1 r1 then
      match takeQuoted (dropWsL r1) with
      | some (nm, _) => some (String.mk nm)
      | none => none
    else none
  | none => none

/-- The element keyword, whitespace and optional quoted name of
ELEMENT_PATTERN: (person|...|group)\s+(?:"([^"]*)")? -/
def elemCore (rest : Line) : Option (String × Option String) :=
  match altCI elementKeywords rest with
  | some (kw, r1) =>
    if hasWs1 r1 then
      match takeQuoted (dropWsL r1) with
      | some (nm, _) => some (String.mk kw, some (String.mk nm))
      | none => some (String.mk kw, none)
    else none
  | none => none

/-- The (\w+)\s*=\s* prefixed branch of ELEMENT_PATTERN. -/
def elemWithId (t0 : Line) : Option (Option String × String × Option String) :=
  match takeWord t0 with
  | some (id, r1) =>
    match dropWsL r1 with
    | '=' :: r2 =>
      match elemCore (dropWsL r2) with
      | some (kw, nm) => some (some (String.mk id), kw, nm)
      | none => none
    | _ => none
  | none => none

/-- ELEMENT_PATTERN:
/^\s*(?:(\w+)\s*=\s*)?(person|softwareSystem|...|group)\s+(?:"([^"]*)")?/i
returning (optional id capture, keyword capture, optional name capture);
the branch with the optional prefix is preferred, as under regex
backtracking. -/
def elemMatch (t : Line) : Option (Option String × String × Option String) :=
  let t0 := dropWsL t
  match elemWithId t0 with
  | some m => some m
  | none =>
    match elemCore t0 with
    | some (kw, nm) => some (none, kw, nm)
    | none => none

/-- RELATIONSHIP_PATTERN:
/^\s*(\w+)\s*->\s*(\w+)\s*(?:"([^"]*)")?(?:\s+"([^"]*)")?/ -/
def relMatchFull (t : Line) :
    Option (String × String × Option String × Option String) :=
  match takeWord (dropWsL t) with
  | some (src, r1) =>
    match dropWsL r1 with
    | '-' :: '>' :: r2 =>
      match takeWord (dropWsL r2) with
      | some (tgt, r3) =>
        match takeQuoted (dropWsL r3) with
        | some (d, r4) =>
          let tech :=
            if hasWs1 r4 then
              match takeQuoted (dropWsL r4) with
              | some (te, _) => some (String.mk te)
              | none => none
            else none
          some (String.mk src, String.mk tgt, some (String.mk d), tech)
        | none => some (String.mk src, String.mk tgt, none, none)
      | none => none
    | _ => none
  | none => none

/-- VIEW_PATTERN:
/^\s*(systemLandscape|...|custom)\s+(?:(\w+)\s+)?(?:"([^"]*)")?/i -/
def viewMatchFull (t : Line) : Option (String × Option String × Option String) :=
  match altCI viewKeywords (dropWsL t) with
  | some (kw, r1) =>
    if hasWs1 r1 then
      let r2 := dropWsL r1
      let scopeRest : Option String × Line :=
        match takeWord r2 with
        | some (w, r3) =>
          if hasWs1 r3 then (some (String.mk w), dropWsL r3) else (none, r2)
        | none => (none, r2)
      let key :=
        match takeQuoted scopeRest.2 with
        | some (k, _) => some (String.mk k)
        | none => none
      some (String.mk kw, scopeRest.1, key)
    else none
  | none => none

/-- ELEMENT_TYPE_MAP lookup with the || 'group' fallback. -/
def elementTypeMap (kw : String) : String :=
  if kw = "person" then "person"
  else if kw = "softwaresystem" then "softwareSystem"
  else if kw = "container" then "container"
  else if kw = "component" then "component"
  else if kw = "deploymentnode" then "deploymentNode"
  else if kw = "deploymentenvironment" then "deploymentNode"
  else if kw = "infrastructurenode" then "infrastructureNode"
  else if kw = "group" then "group"
  else "group"

/-- VIEW_TYPE_MAP lookup with the || 'custom' fallback. -/
def viewTypeMap (kw : String) : String :=
  if kw = "systemlandscape" then "systemLandscape"
  else if kw = "systemcontext" then "systemContext"
  else if kw = "container" then "container"
  else if kw = "component" then "component"
  else if kw = "deployment" then "deployment"
  else if kw = "dynamic" then "dynamic"
  else if kw = "filtered" then "filtered"
  else "custom"

/-- JS `a || b` on a possibly missing, possibly empty string. -/
def jsOr (a : Option String) (b : String) : String :=
  match a with
  | some s => if s = "" then b else s
  | none => b

/-- Strip every whitespace character (JS replace(/\s+/g, "")). -/
def stripWs (s : String) : String := String.mk (s.data.filter (fun c => !isWs c))

/-- The element record pushed for a successful ELEMENT_PATTERN match. -/
def mkElement (i : Nat) (m : Option String × String × Option String) :
    ParsedElement :=
  { identifier := jsOr m.1 (jsOr (m.2.2.map stripWs) "")
    type := elementTypeMap (lowerStr m.2.1)
    name := jsOr m.2.2 ""
    line := i }

def mkRelationship (i : Nat)
    (m : String × String × Option String × Option String) :
    ParsedRelationship :=
  { source := m.1, target := m.2.1, description := m.2.2.1,
    technology := m.2.2.2, line := i }

def mkView (i : Nat) (m : String × Option String × Option String) : ParsedView :=
  { type := viewTypeMap (lowerStr m.1), scope := m.2.1, key := m.2.2, line := i }

/-- Comment / blank skipping shared by the parser and every check:
trimmed.startsWith("//") || trimmed.startsWith("/*") || trimmed === "". -/
def isSkippable (t : Line) : Bool :=
  "//".data.isPrefixOf t || "/*".data.isPrefixOf t || t.isEmpty

/-- What one line contributes to the parse, following the source's
first-match-wins chain (workspace name, element, relationship, view). -/
inductive LineItem where
  | skip
  | wsname (n : String)
  | elem (e : ParsedElement)
  | rel (r : ParsedRelationship)
  | view (v : ParsedView)
  | nothing
  deriving DecidableEq, Repr

def classifyLine (i : Nat) (l : Line) : LineItem :=
  let t := trimL l
  if isSkippable t then .skip
  else
    match wsNameMatch t with
    | some n => .wsname n
    | none =>
      match elemMatch t with
      | some m => .elem (mkElement i m)
      | none =>
        match relMatchFull t with
        | some m => .rel (mkRelationship i m)
        | none =>
          match viewMatchFull t with
          | some m => .view (mkView i m)
          | none => .nothing

/-- Pair every list entry with its index, starting at n. -/
def enumL {α : Type} (n : Nat) : List α → List (Nat × α)
  | [] => []
  | l :: ls => (n, l) :: enumL (n + 1) ls

def parseGo (acc : ParsedWorkspace) : List (Nat × Line) → ParsedWorkspace
  | [] => acc
  | (i, l) :: rest =>
    match classifyLine i l with
    | .skip => parseGo acc rest
    | .wsname n => parseGo { acc with name := some n } rest
    | .elem e => parseGo { acc with elements := acc.elements ++ [e] } rest
    | .rel r => parseGo { acc with relationships := acc.relationships ++ [r] } rest
    | .view v => parseGo { acc with views := acc.views ++ [v] } rest
    | .nothing => parseGo acc rest

/-- parseDocument (src/parser.ts): one forward pass over the lines. -/
def parseDocument (text : String) : ParsedWorkspace :=
  parseGo { name := none, elements := [], relationships := [], views := [] }
    (enumL 0 (toLines text))

/-! ## The diagnostic engine (src/diagnostics.ts, ten checks) -/

inductive Severity where
  | Error
  | Warning
  | Information
  deriving DecidableEq, Repr

structure Diagnostic where
  startLine : Nat
  startCol : Int
  endLine : Nat
  endCol : Int
  message : String
  severity : Severity
  deriving DecidableEq, Repr

def mkDiag (i : Nat) (c1 : Int) (j : Nat) (c2 : Int) (msg : String)
    (sev : Severity) : Diagnostic :=
  { startLine := i, startCol := c1, endLine := j, endCol := c2,
    message := msg, severity := sev }

/-! ### checkBraceBalance -/

/-- One line of the brace scan: characters, column, in-block-comment
flag, in-string flag, depth (with the reset-at-zero rule), accumulated
diagnostics.  The in-string flag plays the role of the source's inner
string-skipping while loop (which looks only for the closing quote and
backslash escapes); it starts false on every line and is discarded at
the end of the line, exactly as the inner loop is. -/
def braceLine (i : Nat) : Line → Nat → Bool → Bool → Nat → List Diagnostic →
    (Bool × Nat × List Diagnostic)
  | [], _, inBC, _, depth, acc => (inBC, depth, acc)
  | '*' :: '/' :: rest, j, true, inStr, depth, acc =>
    braceLine i rest (j + 2) false inStr depth acc
  | _ :: rest, j, true, inStr, depth, acc =>
    braceLine i rest (j + 1) true inStr depth acc
  | '"' :: rest, j, false, true, depth, acc =>
    braceLine i rest (j + 1) false false depth acc
  | '\\' :: _ :: rest, j, false, true, depth, acc =>
    braceLine i rest (j + 2) false true depth acc
  | '\\' :: [], _, false, true, depth, acc => (false, depth, acc)
  | _ :: rest, j, false, true, depth, acc =>
    braceLine i rest (j + 1) false true depth acc
  | '/' :: '*' :: rest, j, false, false, depth, acc =>
    braceLine i rest (j + 2) true false depth acc
  | '/' :: '/' :: _, _, false, false, depth, acc => (false, depth, acc)
  | '"' :: rest, j, false, false, depth, acc =>
    braceLine i rest (j + 1) false true depth acc
  | '{' :: rest, j, false, false, depth, acc =>
    braceLine i rest (j + 1) false false (depth + 1) acc
  | '}' :: rest, j, false, false, depth, acc =>
    if depth = 0 then
      braceLine i rest (j + 1) false false 0
        (acc ++ [mkDiag i j i (j + 1) "Unexpected closing brace" .Error])
    else braceLine i rest (j + 1) false false (depth - 1) acc
  | _ :: rest, j, false, false, depth, acc =>
    braceLine i rest (j + 1) false false depth acc

def braceGo : List (Nat × Line) → Bool → Nat → List Diagnostic →
    (Bool × Nat × List Diagnostic)
  | [], inBC, depth, acc => (inBC, depth, acc)
  | (i, l) :: rest, inBC, depth, acc =>
    let r := braceLine i l 0 inBC false depth acc
    braceGo rest r.1 r.2.1 r.2.2

/-- The whole-document brace scan: final in-block-comment flag, final
depth, and the "Unexpected closing brace" diagnostics in order. -/
def braceFold (lines : List Line) : Bool × Nat × List Diagnostic :=
  braceGo (enumL 0 lines) false 0 []

def unclosedMsg (n : Nat) : String :=
  toString n ++ " unclosed brace" ++ (if n > 1 then "s" else "")

/-- The "Unexpected closing brace" diagnostics of the scan. -/
def braceNegs (lines : List Line) : List Diagnostic := (braceFold lines).2.2

/-- The depth left at end of document (with the reset-at-zero rule):
the number of opening braces in code position left unmatched. -/
def braceDepth (lines : List Line) : Nat := (braceFold lines).2.1

/-- Still inside a block comment at end of document? -/
def braceInBC (lines : List Line) : Bool := (braceFold lines).1

def lastLineIdx (lines : List Line) : Nat := lines.length - 1

def lastLineLen (lines : List Line) : Int :=
  ((lines.getD (lines.length - 1) []).length : Int)

def checkBraceBalance (lines : List Line) : List Diagnostic :=
  braceNegs lines
    ++ (if 0 < braceDepth lines && !braceInBC lines then
          [mkDiag (lastLineIdx lines) 0 (lastLineIdx lines) (lastLineLen lines)
            (unclosedMsg (braceDepth lines)) .Error]
        else [])
    ++ (if braceInBC lines then
          [mkDiag (lastLineIdx lines) 0 (lastLineIdx lines) (lastLineLen lines)
            "Unterminated block comment" .Error]
        else [])

/-! ### checkUnclosedStrings -/

/-- One line of the unclosed-string scan; returns (in-block-comment,
in-string, string-start column). -/
def strLine : Line → Nat → Bool → Bool → Nat → (Bool × Bool × Nat)
  | [], _, inBC, inStr, start => (inBC, inStr, start)
  | '*' :: '/' :: rest, j, true, inStr, start =>
    strLine rest (j + 2) false inStr start
  | _ :: rest, j, true, inStr, start => strLine rest (j + 1) true inStr start
  | '/' :: '*' :: rest, j, false, inStr, start =>
    strLine rest (j + 2) true inStr start
  | '/' :: '/' :: _, _, false, inStr, start => (false, inStr, start)
  | '"' :: rest, j, false, inStr, start =>
    if inStr then strLine rest (j + 1) false false start
    else strLine rest (j + 1) false true j
  | '\\' :: _ :: rest, j, false, true, start =>
    strLine rest (j + 2) false true start
  | '\\' :: [], _, false, true, start => (false, true, start)
  | _ :: rest, j, false, inStr, start => strLine rest (j + 1) false inStr start

def endsWithBackslash (l : Line) : Bool :=
  match l.reverse.dropWhile isWs with
  | '\\' :: _ => true
  | _ => false

def strGo : List (Nat × Line) → Bool → List Diagnostic
  | [], _ => []
  | (i, l) :: rest, inBC =>
    let r := strLine l 0 inBC false 0
    (if r.2.1 && !endsWithBackslash l then
      [mkDiag i (r.2.2 : Int) i (l.length : Int) "Unterminated string" .Error]
    else []) ++ strGo rest r.1

def checkUnclosedStrings (lines : List Line) : List Diagnostic :=
  strGo (enumL 0 lines) false

/-! ### identifier declarations: the shared pattern of
checkDuplicateIdentifiers and buildIdentifierMap,
/^\s*(\w+)\s*=\s*(person|...|group)\b/i -/

def idDeclMatch (l : Line) : Option (String × String) :=
  match takeWord (dropWsL l) with
  | some (id, r1) =>
    match dropWsL r1 with
    | '=' :: r2 =>
      match altCI elementKeywords (dropWsL r2) with
      | some (kw, r3) =>
        if boundaryOk r3 then some (String.mk id, String.mk kw) else none
      | none => none
    | _ => none
  | none => none

def dupMsg (id : String) (first : Nat) : String :=
  "Duplicate identifier '" ++ id ++ "' (first defined on line " ++
    toString (first + 1) ++ ")"

def dupGo (seen : String → Option Nat) : List (Nat × Line) → List Diagnostic
  | [] => []
  | (i, l) :: rest =>
    match idDeclMatch l with
    | none => dupGo seen rest
    | some (id, _) =>
      match seen id with
      | some first =>
        mkDiag i (jsIndexOf l id.data) i (jsIndexOf l id.data + id.length)
          (dupMsg id first) .Warning :: dupGo seen rest
      | none => dupGo (fun k => if k = id then some i else seen k) rest

def checkDuplicateIdentifiers (lines : List Line) : List Diagnostic :=
  dupGo (fun _ => none) (enumL 0 lines)

structure IdentifierInfo where
  line : Nat
  type : String
  deriving DecidableEq, Repr

def bimGo (m : String → Option IdentifierInfo) :
    List (Nat × Line) → (String → Option IdentifierInfo)
  | [] => m
  | (i, l) :: rest =>
    match idDeclMatch l with
    | some (id, kw) =>
      bimGo (fun k => if k = id then some ⟨i, lowerStr kw⟩ else m k) rest
    | none => bimGo m rest

def buildIdentifierMap (lines : List Line) : String → Option IdentifierInfo :=
  bimGo (fun _ => none) (enumL 0 lines)

/-! ### checkWorkspaceStructure -/

/-- trimmed.match(/^kw\b/i) used as a test. -/
def startsKwCI (kw : String) (t : Line) : Bool :=
  match litCI kw.data t with
  | some (_, r) => boundaryOk r
  | none => false

/-- Pop one context tag per closing brace of the raw line (bounded at
the empty stack); the stack's head is the JS array's last element. -/
def popBraces (l : Line) (st : List String) : List String :=
  l.foldl (fun st c => if c = '}' then st.tail else st) st

structure WsState where
  wsCount : Nat
  modelCount : Nat
  viewsCount : Nat
  wsLine : Nat
  stack : List String
  diags : List Diagnostic

def wsStepWorkspace (st : WsState) (i : Nat) (l : Line) (t : Line) : WsState :=
  if startsKwCI "workspace" t then
    let st1 : WsState := { st with wsCount := st.wsCount + 1, wsLine := i,
                                   stack := "workspace" :: st.stack }
    if 1 < st1.wsCount then
      { st1 with diags := st1.diags ++
          [mkDiag i (jsIndexOf l "workspace".data) i
            (jsIndexOf l "workspace".data + 9)
            "Duplicate workspace block (workspace should only be declared once)"
            .Error] }
    else st1
  else st

def wsStepModel (st : WsState) (i : Nat) (l : Line) (t : Line) : WsState :=
  if startsKwCI "model" t then
    let st1 : WsState := { st with modelCount := st.modelCount + 1,
                                   stack := "model" :: st.stack }
    if 1 < st1.modelCount then
      { st1 with diags := st1.diags ++
          [mkDiag i (jsIndexOf l "model".data) i
            (jsIndexOf l "model".data + 5)
            "Duplicate model block (model should only be declared once)"
            .Error] }
    else st1
  else st

def wsStepViews (st : WsState) (t : Line) : WsState :=
  if startsKwCI "views" t then
    { st with viewsCount := st.viewsCount + 1, stack := "views" :: st.stack }
  else st

def wsStep (st : WsState) (i : Nat) (l : Line) : WsState :=
  let t := trimL l
  if isSkippable t then st
  else
    let st3 := wsStepViews (wsStepModel (wsStepWorkspace st i l t) i l t) t
    { st3 with stack := popBraces l st3.stack }

def wsGo (st : WsState) : List (Nat × Line) → WsState
  | [] => st
  | (i, l) :: rest => wsGo (wsStep st i l) rest

def checkWorkspaceStructure (lines : List Line) : List Diagnostic :=
  let st := wsGo ⟨0, 0, 0, 0, [], []⟩ (enumL 0 lines)
  st.diags
    ++ (if st.wsCount = 0 then
          [mkDiag 0 0 0 0
            "Missing workspace block (workspace declaration is required)" .Error]
        else [])
    ++ (if st.modelCount = 0 && st.wsCount > 0 then
          [mkDiag st.wsLine 0 st.wsLine ((lines.getD st.wsLine []).length : Int)
            "Missing model block (model block is required within workspace)"
            .Error]
        else [])
    ++ (if st.viewsCount = 0 && st.wsCount > 0 then
          [mkDiag st.wsLine 0 st.wsLine ((lines.getD st.wsLine []).length : Int)
            "Missing views block (views are recommended for visualization)"
            .Warning]
        else [])

/-! ### checkElementPlacement -/

/-- /^\s*(?:\w+\s*=\s*)?(person|...|group)\b/i, returning the keyword
capture with the input's case. -/
def placeElemMatch (t : Line) : Option String :=
  let core : Line → Option String := fun rest =>
    match altCI elementKeywords rest with
    | some (kw, r) => if boundaryOk r then some (String.mk kw) else none
    | none => none
  let t0 := dropWsL t
  let withId : Option String :=
    match takeWord t0 with
    | some (_, r1) =>
      match dropWsL r1 with
      | '=' :: r2 => core (dropWsL r2)
      | _ => none
    | none => none
  match withId with
  | some k => some k
  | none => core t0

def placeStep (st : List String × List Diagnostic) (i : Nat) (l : Line) :
    List String × List Diagnostic :=
  let t := trimL l
  if isSkippable t then st
  else
    let stack :=
      if startsKwCI "workspace" t then "workspace" :: st.1
      else if startsKwCI "model" t then "model" :: st.1
      else if startsKwCI "views" t then "views" :: st.1
      else if startsKwCI "styles" t then "styles" :: st.1
      else if startsKwCI "softwareSystem" t && containsSub t "\x7b".data then
        "softwareSystem" :: st.1
      else if startsKwCI "container" t && containsSub t "\x7b".data then
        "container" :: st.1
      else st.1
    let diags :=
      match placeElemMatch t with
      | some kw =>
        let elementType := lowerStr kw
        let currentContext := stack.head?
        let col := jsIndexOf l kw.data
        st.2
          ++ (if elementType = "container" &&
                  !(currentContext = some "softwareSystem") then
                [mkDiag i col i (col + kw.length)
                  "Invalid container placement (containers must be declared inside a softwareSystem block)"
                  .Error]
              else [])
          ++ (if elementType = "component" &&
                  !(currentContext = some "container") then
                [mkDiag i col i (col + kw.length)
                  "Invalid component placement (components must be declared inside a container block)"
                  .Error]
              else [])
          ++ (if currentContext = some "views" then
                [mkDiag i col i (col + kw.length)
                  "Invalid element placement (elements belong in the model block, not views)"
                  .Error]
              else [])
      | none => st.2
    (popBraces l stack, diags)

def placeGo (st : List String × List Diagnostic) :
    List (Nat × Line) → List String × List Diagnostic
  | [] => st
  | (i, l) :: rest => placeGo (placeStep st i l) rest

def checkElementPlacement (lines : List Line) : List Diagnostic :=
  (placeGo ([], []) (enumL 0 lines)).2

/-! ### checkAdditionalSyntax -/

/-- /\w+\s*[-=]+>\s*$/ as a test: after optional trailing whitespace the
line ends with a word character, optional whitespace, one or more
dashes or equal signs, and a closing angle bracket. -/
def invalidArrowTest (t : Line) : Bool :=
  match t.reverse.dropWhile isWs with
  | '>' :: v =>
    let w := v.dropWhile (fun c => c = '-' || c = '=')
    decide (w ≠ v) &&
      (match w.dropWhile isWs with
       | c :: _ => isWordChar c
       | [] => false)
  | _ => false

/-- /^\s*autoLayout\s+(\w+)/i -/
def autoLayoutMatch (t : Line) : Option String :=
  match litCI "autoLayout".data (dropWsL t) with
  | some (_, r1) =>
    if hasWs1 r1 then
      match takeWord (dropWsL r1) with
      | some (w, _) => some (String.mk w)
      | none => none
    else none
  | none => none

/-- /^\s*(?:systemLandscape|...)\s+(?:\w+\s+)?"([^"]*)"/i returning the
required view-key capture. -/
def viewKeyMatch (t : Line) : Option String :=
  match altCI viewKeywords (dropWsL t) with
  | some (_, r1) =>
    if hasWs1 r1 then
      let r2 := dropWsL r1
      let withScope : Option (List Char) :=
        match takeWord r2 with
        | some (_, r3) =>
          if hasWs1 r3 then
            match takeQuoted (dropWsL r3) with
            | some (k, _) => some k
            | none => none
          else none
        | none => none
      match withScope with
      | some k => some (String.mk k)
      | none =>
        match takeQuoted r2 with
        | some (k, _) => some (String.mk k)
        | none => none
    else none
  | none => none

structure AddState where
  stack : List String
  viewKeys : String → Bool
  diags : List Diagnostic

def addStep (st : AddState) (i : Nat) (l : Line) : AddState :=
  let t := trimL l
  if isSkippable t then st
  else
    let stack :=
      if startsKwCI "workspace" t then "workspace" :: st.stack
      else if startsKwCI "model" t then "model" :: st.stack
      else if startsKwCI "views" t then "views" :: st.stack
      else st.stack
    let d1 :=
      if 6 < stack.length then
        [mkDiag i 0 i (l.length : Int)
          "Excessive nesting depth detected (consider simplifying structure)"
          .Warning]
      else []
    let d2 :=
      if containsSub t "->".data && invalidArrowTest t then
        [mkDiag i (jsIndexOf l "->".data) i (l.length : Int)
          "Incomplete relationship (missing target identifier)" .Error]
      else []
    let d3 :=
      match autoLayoutMatch t with
      | some dirText =>
        let direction := lowerStr dirText
        if !(["tb", "bt", "lr", "rl"].contains direction) then
          [mkDiag i (jsIndexOf l dirText.data) i
            (jsIndexOf l dirText.data + dirText.length)
            ("Invalid autoLayout direction '" ++ direction ++
              "'. Valid options: tb, bt, lr, rl") .Error]
        else []
      | none => []
    let stKeys :=
      match viewKeyMatch t with
      | some key =>
        if st.viewKeys key then
          (st.viewKeys,
            [mkDiag i (jsIndexOf l key.data) i
              (jsIndexOf l key.data + key.length)
              ("Duplicate view key '" ++ key ++ "'") .Warning])
        else ((fun k => if k = key then true else st.viewKeys k), [])
      | none => (st.viewKeys, [])
    { stack := popBraces l stack
      viewKeys := stKeys.1
      diags := st.diags ++ d1 ++ d2 ++ d3 ++ stKeys.2 }

def addGo (st : AddState) : List (Nat × Line) → AddState
  | [] => st
  | (i, l) :: rest => addGo (addStep st i l) rest

def checkAdditionalSyntax (lines : List Line) : List Diagnostic :=
  (addGo ⟨[], fun _ => false, []⟩ (enumL 0 lines)).diags

/-! ### checkRelationshipReferences -/

/-- /^\s*(\w+)\s*->\s*(\w+)/ -/
def relMatchD (t : Line) : Option (String × String) :=
  match takeWord (dropWsL t) with
  | some (src, r1) =>
    match dropWsL r1 with
    | '-' :: '>' :: r2 =>
      match takeWord (dropWsL r2) with
      | some (tgt, _) => some (String.mk src, String.mk tgt)
      | none => none
    | _ => none
  | none => none

def selfRefMsg (src : String) : String :=
  "Self-referencing relationship detected (" ++ src ++ " -> " ++ src ++ ")"

def relLineDiags (idMap : String → Option IdentifierInfo) (i : Nat) (l : Line) :
    List Diagnostic :=
  let t := trimL l
  if isSkippable t then []
  else
    match relMatchD t with
    | some (src, tgt) =>
      (if (idMap src).isNone then
        [mkDiag i (jsIndexOf l src.data) i (jsIndexOf l src.data + src.length)
          ("Undefined source identifier '" ++ src ++ "' in relationship")
          .Error]
      else [])
      ++ (if (idMap tgt).isNone then
        [mkDiag i (jsIndexOfFrom l tgt.data (jsIndexOf l "->".data + 2)) i
          (jsIndexOfFrom l tgt.data (jsIndexOf l "->".data + 2) + tgt.length)
          ("Undefined target identifier '" ++ tgt ++ "' in relationship")
          .Error]
      else [])
      ++ (if src = tgt && (idMap src).isSome then
        [mkDiag i (jsIndexOf l src.data) i (l.length : Int) (selfRefMsg src)
          .Warning]
      else [])
    | none => []

def checkRelationshipReferences (lines : List Line)
    (idMap : String → Option IdentifierInfo) : List Diagnostic :=
  (enumL 0 lines).flatMap (fun p => relLineDiags idMap p.1 p.2)

/-! ### checkViewScopes -/

/-- /^\s*(systemLandscape|...|custom)\s+(?:(\w+)\s+)?/i returning the
keyword capture (input case) and the optional scope capture. -/
def viewScopeMatch (t : Line) : Option (String × Option String) :=
  match altCI viewKeywords (dropWsL t) with
  | some (kw, r1) =>
    if hasWs1 r1 then
      let r2 := dropWsL r1
      match takeWord r2 with
      | some (w, r3) =>
        if hasWs1 r3 then some (String.mk kw, some (String.mk w))
        else some (String.mk kw, none)
      | none => some (String.mk kw, none)
    else none
  | none => none

def containerMismatchMsg (s ty : String) : String :=
  "Type mismatch: container view requires a softwareSystem scope, but '" ++
    s ++ "' is a " ++ ty

def viewLineDiags (idMap : String → Option IdentifierInfo) (i : Nat) (l : Line) :
    List Diagnostic :=
  let t := trimL l
  if isSkippable t then []
  else
    match viewScopeMatch t with
    | some (kwText, scope) =>
      let viewType := lowerStr kwText
      if ["systemcontext", "container", "component"].contains viewType then
        match scope with
        | none =>
          [mkDiag i (jsIndexOf l kwText.data) i
            (jsIndexOf l kwText.data + kwText.length)
            ("Missing scope for " ++ kwText ++
              " view (scope identifier is required)") .Error]
        | some s =>
          match idMap s with
          | none =>
            [mkDiag i (jsIndexOf l s.data) i (jsIndexOf l s.data + s.length)
              ("Undefined scope identifier '" ++ s ++ "' in view") .Error]
          | some info =>
            (if viewType = "container" && !(info.type = "softwaresystem") then
              [mkDiag i (jsIndexOf l s.data) i (jsIndexOf l s.data + s.length)
                (containerMismatchMsg s info.type) .Error]
            else [])
            ++ (if viewType = "component" && !(info.type = "container") then
              [mkDiag i (jsIndexOf l s.data) i (jsIndexOf l s.data + s.length)
                ("Type mismatch: component view requires a container scope, but '"
                  ++ s ++ "' is a " ++ info.type) .Error]
            else [])
      else
        match scope with
        | some s =>
          if (idMap s).isNone then
            [mkDiag i (jsIndexOf l s.data) i (jsIndexOf l s.data + s.length)
              ("Undefined scope identifier '" ++ s ++ "' in view") .Error]
          else []
        | none => []
    | none => []

def checkViewScopes (lines : List Line)
    (idMap : String → Option IdentifierInfo) : List Diagnostic :=
  (enumL 0 lines).flatMap (fun p => viewLineDiags idMap p.1 p.2)

/-! ### checkContextAwarePlacement -/

/-- /^\s*\w+\s*->\s*\w+/ as a test. -/
def relTest (t : Line) : Bool := (relMatchD t).isSome

/-- /^\s*(element|relationship)\s+"/i as a test. -/
def styleTest (t : Line) : Bool :=
  match altCI ["element", "relationship"] (dropWsL t) with
  | some (_, r1) =>
    if hasWs1 r1 then
      match dropWsL r1 with
      | '"' :: _ => true
      | _ => false
    else false
  | none => false

/-- /^\s*include\b/i as a test. -/
def includeTest (t : Line) : Bool :=
  match litCI "include".data (dropWsL t) with
  | some (_, r) => boundaryOk r
  | none => false

/-- /^\s*(systemLandscape|...|custom)\b/i returning the keyword capture. -/
def ctxViewKwMatch (t : Line) : Option String :=
  match altCI viewKeywords (dropWsL t) with
  | some (kw, r) => if boundaryOk r then some (String.mk kw) else none
  | none => none

def ctxStep (st : List String × List Diagnostic) (i : Nat) (l : Line) :
    List String × List Diagnostic :=
  let t := trimL l
  if isSkippable t then st
  else
    let stack :=
      if startsKwCI "workspace" t then "workspace" :: st.1
      else if startsKwCI "model" t then "model" :: st.1
      else if startsKwCI "views" t then "views" :: st.1
      else if startsKwCI "styles" t then "styles" :: st.1
      else if (ctxViewKwMatch t).isSome && containsSub t "\x7b".data then
        "view" :: st.1
      else st.1
    let currentContext := stack.head?
    let d1 :=
      if relTest t && currentContext = some "views" then
        [mkDiag i 0 i (l.length : Int)
          "Invalid relationship placement (relationships belong in the model block, not views)"
          .Error]
      else []
    let d2 :=
      match ctxViewKwMatch t with
      | some kw =>
        if currentContext = some "model" then
          [mkDiag i (jsIndexOf l kw.data) i (jsIndexOf l kw.data + kw.length)
            "Invalid view placement (views belong in the views block, not model)"
            .Error]
        else []
      | none => []
    let d3 :=
      if styleTest t && !(currentContext = some "styles") then
        [mkDiag i 0 i (l.length : Int)
          "Invalid style rule placement (style rules must be inside the styles block)"
          .Error]
      else []
    let d4 :=
      if includeTest t && !(currentContext = some "view") then
        [mkDiag i (jsIndexOf l "include".data) i
          (jsIndexOf l "include".data + 7)
          "Invalid include placement (include directives must be inside a view block)"
          .Error]
      else []
    (popBraces l stack, st.2 ++ d1 ++ d2 ++ d3 ++ d4)

def ctxGo (st : List String × List Diagnostic) :
    List (Nat × Line) → List String × List Diagnostic
  | [] => st
  | (i, l) :: rest => ctxGo (ctxStep st i l) rest

def checkContextAwarePlacement (lines : List Line) : List Diagnostic :=
  (ctxGo ([], []) (enumL 0 lines)).2

/-! ### checkKeywordSpelling, findClosestKeyword, levenshteinDistance -/

def minNat3 (a b c : Nat) : Nat := min a (min b c)

/-- One row of the DP matrix: from the previous row (prefix distances
for one fewer character of b) compute the entries for columns 1..|a|,
threading the value just computed to the left. -/
def levNextRow (c : Char) : List Char → List Nat → Nat → List Nat
  | [], _, _ => []
  | x :: xs, prev, left =>
    match prev with
    | p0 :: rest =>
      let up := match rest with | u :: _ => u | [] => 0
      let cur := if c = x then p0 else 1 + minNat3 p0 left up
      cur :: levNextRow c xs rest cur
    | [] => []

def levGo (a : List Char) : List Char → Nat → List Nat → List Nat
  | [], _, row => row
  | c :: bs, i, row => levGo a bs (i + 1) ((i + 1) :: levNextRow c a row (i + 1))

/-- levenshteinDistance (src/diagnostics.ts): matrix[i][j] is the
distance between the first i characters of b and the first j characters
of a; the result is matrix[b.length][a.length]. -/
def levenshteinDistance (a b : String) : Nat :=
  (levGo a.data b.data 0 (List.range (a.data.length + 1))).getLastD 0

def ltOpt (d : Nat) : Option Nat → Bool
  | none => true
  | some m => d < m

/-- The distance findClosestKeyword compares: case-insensitive via
toLowerCase on both sides. -/
def kwDist (input k : String) : Nat :=
  levenshteinDistance (lowerStr input) (lowerStr k)

def fckGo (input : String) : List String → Option Nat → Option String →
    Option String
  | [], _, closest => closest
  | k :: ks, minD, closest =>
    let d := kwDist input k
    if ltOpt d minD && d ≤ 3 then fckGo input ks (some d) (some k)
    else fckGo input ks minD closest

/-- findClosestKeyword: Infinity is modelled as the none of an optional
minimum; an update happens exactly when distance < minDistance and
distance ≤ 3, keeping the first keyword attaining each new minimum. -/
def findClosestKeyword (input : String) (keywords : List String) :
    Option String :=
  fckGo input keywords none none

/-- /^\s*(?:\w+\s*=\s*)?(\w+)\s+"/i returning the word capture. -/
def kwSpellMatch (t : Line) : Option String :=
  let core : Line → Option String := fun rest =>
    match takeWord rest with
    | some (w, r1) =>
      if hasWs1 r1 then
        match dropWsL r1 with
        | '"' :: _ => some (String.mk w)
        | _ => none
      else none
    | none => none
  let t0 := dropWsL t
  let withId : Option String :=
    match takeWord t0 with
    | some (_, r1) =>
      match dropWsL r1 with
      | '=' :: r2 => core (dropWsL r2)
      | _ => none
    | none => none
  match withId with
  | some k => some k
  | none => core t0

/-- /^\s*(\w+)\s*=/ returning the identifier capture. -/
def idEqMatch (t : Line) : Option String :=
  match takeWord (dropWsL t) with
  | some (id, r1) =>
    match dropWsL r1 with
    | '=' :: _ => some (String.mk id)
    | _ => none
  | none => none

def reservedKeywords : List String :=
  ["workspace", "model", "views", "styles"] ++ elementKeywords ++
    viewKeywords ++ ["include", "exclude", "autoLayout"]

def spellLineDiags (i : Nat) (l : Line) : List Diagnostic :=
  let t := trimL l
  if isSkippable t then []
  else
    (match kwSpellMatch t with
     | some keyword =>
       if !elementKeywords.contains keyword &&
           !viewKeywords.contains keyword &&
           keyword ≠ "workspace" && keyword ≠ "model" &&
           keyword ≠ "views" && keyword ≠ "styles" then
         match findClosestKeyword keyword (elementKeywords ++ viewKeywords) with
         | some suggestion =>
           [mkDiag i (jsIndexOf l keyword.data) i
             (jsIndexOf l keyword.data + keyword.length)
             ("Unknown keyword '" ++ keyword ++ "'. Did you mean '" ++
               suggestion ++ "'?") .Error]
         | none => []
       else []
     | none => [])
    ++ (match idEqMatch t with
        | some id =>
          if reservedKeywords.contains id then
            [mkDiag i (jsIndexOf l id.data) i
              (jsIndexOf l id.data + id.length)
              ("Reserved keyword '" ++ id ++
                "' cannot be used as an identifier") .Error]
          else []
        | none => [])

def checkKeywordSpelling (lines : List Line) : List Diagnostic :=
  (enumL 0 lines).flatMap (fun p => spellLineDiags p.1 p.2)

/-! ### updateDiagnostics -/

/-- The full diagnostic computation of updateDiagnostics: all ten
checks over the line array, in source order (the editor-publishing
wrapper around it is out of scope). -/
def updateDiagnostics (text : String) : List Diagnostic :=
  let lines := toLines text
  let identifierMap := buildIdentifierMap lines
  checkBraceBalance lines
    ++ checkUnclosedStrings lines
    ++ checkDuplicateIdentifiers lines
    ++ checkWorkspaceStructure lines
    ++ checkElementPlacement lines
    ++ checkAdditionalSyntax lines
    ++ checkRelationshipReferences lines identifierMap
    ++ checkViewScopes lines identifierMap
    ++ checkContextAwarePlacement lines
    ++ checkKeywordSpelling lines

/-! ## General lemmas about per-line checks -/

theorem mem_enumL {α : Type} : ∀ (ls : List α) (n : Nat) (p : Nat × α),
    p ∈ enumL n ls → n ≤ p.1 ∧ p.1 < n + ls.length := by
  intro ls
  induction ls with
  | nil => intro n p h; simp [enumL] at h
  | cons a as ih =>
    intro n p h
    simp only [enumL, List.mem_cons] at h
    rcases h with h | h
    · subst h; simp
    · have := ih (n + 1) p h
      constructor
      · omega
      · simp only [List.length_cons]; omega

theorem enumL_get {α : Type} : ∀ (ls : List α) (n i : Nat) (l : α),
    ls[i]? = some l → (n + i, l) ∈ enumL n ls := by
  intro ls
  induction ls with
  | nil => intro n i l h; simp at h
  | cons a as ih =>
    intro n i l h
    cases i with
    | zero =>
      simp only [List.getElem?_cons_zero, Option.some.injEq] at h
      subst h
      simp [enumL]
    | succ i =>
      simp only [List.getElem?_cons_succ] at h
      have h2 := ih (n + 1) i l h
      simp only [enumL, List.mem_cons]
      right
      have heq : n + (i + 1) = n + 1 + i := by omega
      rw [heq]
      exact h2

/-- Filtering a line-tagged per-line check down to one line yields
exactly that line's contribution. -/
theorem flatMap_enumL_filter (f : Nat → Line → List Diagnostic)
    (htag : ∀ j l d, d ∈ f j l → d.startLine = j) :
    ∀ (ls : List Line) (n i : Nat) (l : Line), ls[i]? = some l →
      ((enumL n ls).flatMap (fun p => f p.1 p.2)).filter
          (fun d => d.startLine == n + i) = f (n + i) l := by
  intro ls
  induction ls with
  | nil => intro n i l h; simp at h
  | cons a as ih =>
    intro n i l h
    have hrest : ∀ d ∈ (enumL (n + 1) as).flatMap (fun p => f p.1 p.2),
        n + 1 ≤ d.startLine := by
      intro d hd
      rcases List.mem_flatMap.mp hd with ⟨p, hp, hdf⟩
      have h1 := (mem_enumL as (n + 1) p hp).1
      have h2 := htag p.1 p.2 d hdf
      omega
    cases i with
    | zero =>
      simp only [List.getElem?_cons_zero, Option.some.injEq] at h
      subst h
      simp only [enumL, List.flatMap_cons, List.filter_append, Nat.add_zero]
      have h1 : (f n a).filter (fun d => d.startLine == n) = f n a := by
        rw [List.filter_eq_self]
        intro d hd
        have := htag n a d hd
        simp [this]
      have h2 : ((enumL (n + 1) as).flatMap (fun p => f p.1 p.2)).filter
          (fun d => d.startLine == n) = [] := by
        rw [List.filter_eq_nil_iff]
        intro d hd
        have := hrest d hd
        simp only [beq_iff_eq]
        omega
      rw [h1, h2, List.append_nil]
    | succ i =>
      simp only [List.getElem?_cons_succ] at h
      simp only [enumL, List.flatMap_cons, List.filter_append]
      have h0 : (f n a).filter (fun d => d.startLine == n + (i + 1)) = [] := by
        rw [List.filter_eq_nil_iff]
        intro d hd
        have := htag n a d hd
        simp only [beq_iff_eq, this]
        omega
      rw [h0, List.nil_append]
      have heq : n + (i + 1) = (n + 1) + i := by omega
      rw [heq]
      exact ih (n + 1) i l h

/-- A line index beyond the document contributes nothing. -/
theorem flatMap_enumL_filter_none (f : Nat → Line → List Diagnostic)
    (htag : ∀ j l d, d ∈ f j l → d.startLine = j)
    (ls : List Line) (i : Nat) (h : ls.length ≤ i) :
    ((enumL 0 ls).flatMap (fun p => f p.1 p.2)).filter
        (fun d => d.startLine == i) = [] := by
  rw [List.filter_eq_nil_iff]
  intro d hd
  rcases List.mem_flatMap.mp hd with ⟨p, hp, hdf⟩
  have h1 := (mem_enumL ls 0 p hp).2
  have h2 := htag p.1 p.2 d hdf
  simp only [beq_iff_eq]
  omega

/-! ## Parse decomposition -/

def elemOf (p : Nat × Line) : Option ParsedElement :=
  match classifyLine p.1 p.2 with
  | .elem e => some e
  | _ => none

def relOf (p : Nat × Line) : Option ParsedRelationship :=
  match classifyLine p.1 p.2 with
  | .rel r => some r
  | _ => none

def viewOf (p : Nat × Line) : Option ParsedView :=
  match classifyLine p.1 p.2 with
  | .view v => some v
  | _ => none

theorem parseGo_elements : ∀ (rest : List (Nat × Line)) (acc : ParsedWorkspace),
    (parseGo acc rest).elements = acc.elements ++ rest.filterMap elemOf := by
  intro rest
  induction rest with
  | nil => intro acc; simp [parseGo]
  | cons p ps ih =>
    intro acc
    obtain ⟨i, l⟩ := p
    cases hc : classifyLine i l <;>
      simp [parseGo, hc, elemOf, ih]

theorem parseGo_relationships :
    ∀ (rest : List (Nat × Line)) (acc : ParsedWorkspace),
    (parseGo acc rest).relationships =
      acc.relationships ++ rest.filterMap relOf := by
  intro rest
  induction rest with
  | nil => intro acc; simp [parseGo]
  | cons p ps ih =>
    intro acc
    obtain ⟨i, l⟩ := p
    cases hc : classifyLine i l <;>
      simp [parseGo, hc, relOf, ih]

theorem parseGo_views : ∀ (rest : List (Nat × Line)) (acc : ParsedWorkspace),
    (parseGo acc rest).views = acc.views ++ rest.filterMap viewOf := by
  intro rest
  induction rest with
  | nil => intro acc; simp [parseGo]
  | cons p ps ih =>
    intro acc
    obtain ⟨i, l⟩ := p
    cases hc : classifyLine i l <;>
      simp [parseGo, hc, viewOf, ih]

theorem parseDocument_elements (text : String) :
    (parseDocument text).elements =
      (enumL 0 (toLines text)).filterMap elemOf := by
  unfold parseDocument
  rw [parseGo_elements]
  rfl

theorem parseDocument_relationships (text : String) :
    (parseDocument text).relationships =
      (enumL 0 (toLines text)).filterMap relOf := by
  unfold parseDocument
  rw [parseGo_relationships]
  rfl

theorem parseDocument_views (text : String) :
    (parseDocument text).views = (enumL 0 (toLines text)).filterMap viewOf := by
  unfold parseDocument
  rw [parseGo_views]
  rfl

theorem classifyLine_elem_line (i : Nat) (l : Line) (e : ParsedElement) :
    classifyLine i l = .elem e → e.line = i := by
  intro h
  simp only [classifyLine] at h
  split at h
  · exact LineItem.noConfusion h
  · split at h
    · exact LineItem.noConfusion h
    · split at h
      · cases h; rfl
      · split at h
        · exact LineItem.noConfusion h
        · split at h
          · exact LineItem.noConfusion h
          · exact LineItem.noConfusion h

theorem classifyLine_rel_line (i : Nat) (l : Line) (r : ParsedRelationship) :
    classifyLine i l = .rel r → r.line = i := by
  intro h
  simp only [classifyLine] at h
  split at h
  · exact LineItem.noConfusion h
  · split at h
    · exact LineItem.noConfusion h
    · split at h
      · exact LineItem.noConfusion h
      · split at h
        · cases h; rfl
        · split at h
          · exact LineItem.noConfusion h
          · exact LineItem.noConfusion h

theorem classifyLine_view_line (i : Nat) (l : Line) (v : ParsedView) :
    classifyLine i l = .view v → v.line = i := by
  intro h
  simp only [classifyLine] at h
  split at h
  · exact LineItem.noConfusion h
  · split at h
    · exact LineItem.noConfusion h
    · split at h
      · exact LineItem.noConfusion h
      · split at h
        · exact LineItem.noConfusion h
        · split at h
          · cases h; rfl
          · exact LineItem.noConfusion h

theorem elemOf_line (p : Nat × Line) (e : ParsedElement) :
    elemOf p = some e → e.line = p.1 := by
  intro h
  unfold elemOf at h
  split at h
  · cases h; exact classifyLine_elem_line p.1 p.2 _ (by assumption)
  · exact Option.noConfusion h

theorem relOf_line (p : Nat × Line) (r : ParsedRelationship) :
    relOf p = some r → r.line = p.1 := by
  intro h
  unfold relOf at h
  split at h
  · cases h; exact classifyLine_rel_line p.1 p.2 _ (by assumption)
  · exact Option.noConfusion h

theorem viewOf_line (p : Nat × Line) (v : ParsedView) :
    viewOf p = some v → v.line = p.1 := by
  intro h
  unfold viewOf at h
  split at h
  · cases h; exact classifyLine_view_line p.1 p.2 _ (by assumption)
  · exact Option.noConfusion h

/-- Filtering an index-tagged per-line extraction down to one line. -/
theorem filterMap_enumL_filter {β : Type} (g : Nat × Line → Option β)
    (tag : β → Nat) (htag : ∀ p b, g p = some b → tag b = p.1) :
    ∀ (ls : List Line) (n i : Nat) (l : Line), ls[i]? = some l →
      ((enumL n ls).filterMap g).filter (fun b => tag b == n + i) =
        (g (n + i, l)).toList := by
  intro ls
  induction ls with
  | nil => intro n i l h; simp at h
  | cons a as ih =>
    intro n i l h
    have hrest : ∀ b ∈ (enumL (n + 1) as).filterMap g, n + 1 ≤ tag b := by
      intro b hb
      rcases List.mem_filterMap.mp hb with ⟨p, hp, hbg⟩
      have h1 := (mem_enumL as (n + 1) p hp).1
      have h2 := htag p b hbg
      omega
    cases i with
    | zero =>
      simp only [List.getElem?_cons_zero, Option.some.injEq] at h
      subst h
      simp only [enumL, List.filterMap_cons, Nat.add_zero]
      cases hg : g (n, a) with
      | none =>
        simp only [hg]
        rw [List.filter_eq_nil_iff.mpr]
        · rfl
        · intro b hb
          have := hrest b hb
          simp only [beq_iff_eq]
          omega
      | some b =>
        simp only [hg, List.filter_cons]
        have hb := htag (n, a) b hg
        simp only [hb, beq_self_eq_true, if_true]
        rw [List.filter_eq_nil_iff.mpr]
        · rfl
        · intro b2 hb2
          have := hrest b2 hb2
          simp only [beq_iff_eq]
          omega
    | succ i =>
      simp only [List.getElem?_cons_succ] at h
      simp only [enumL, List.filterMap_cons]
      have heq : n + (i + 1) = (n + 1) + i := by omega
      cases hg : g (n, a) with
      | none =>
        simp only [hg]
        rw [heq]
        exact ih (n + 1) i l h
      | some b =>
        simp only [hg, List.filter_cons]
        have hb := htag (n, a) b hg
        have hne : (tag b == n + (i + 1)) = false := by
          simp only [hb, beq_eq_false_iff_ne]
          omega
        rw [hne]
        simp only [Bool.false_eq_true, if_false]
        rw [heq]
        exact ih (n + 1) i l h

theorem filterMap_enumL_filter_ge {β : Type} (g : Nat × Line → Option β)
    (tag : β → Nat) (htag : ∀ p b, g p = some b → tag b = p.1)
    (ls : List Line) (i : Nat) (h : ls.length ≤ i) :
    ((enumL 0 ls).filterMap g).filter (fun b => tag b == i) = [] := by
  rw [List.filter_eq_nil_iff]
  intro b hb
  rcases List.mem_filterMap.mp hb with ⟨p, hp, hbg⟩
  have h1 := (mem_enumL ls 0 p hp).2
  have h2 := htag p b hbg
  simp only [beq_iff_eq]
  omega

/-- The parsed constructs recorded from one line. -/
def elementsAt (pw : ParsedWorkspace) (i : Nat) : List ParsedElement :=
  pw.elements.filter (fun e => e.line == i)

def relationshipsAt (pw : ParsedWorkspace) (i : Nat) : List ParsedRelationship :=
  pw.relationships.filter (fun r => r.line == i)

def viewsAt (pw : ParsedWorkspace) (i : Nat) : List ParsedView :=
  pw.views.filter (fun v => v.line == i)

def constructsAt (pw : ParsedWorkspace) (i : Nat) : Nat :=
  (elementsAt pw i).length + (relationshipsAt pw i).length +
    (viewsAt pw i).length

theorem elementsAt_parse (text : String) (i : Nat) (l : Line)
    (h : (toLines text)[i]? = some l) :
    elementsAt (parseDocument text) i = (elemOf (i, l)).toList := by
  unfold elementsAt
  rw [parseDocument_elements]
  have := filterMap_enumL_filter elemOf (fun e => e.line) elemOf_line
    (toLines text) 0 i l h
  simpa using this

theorem relationshipsAt_parse (text : String) (i : Nat) (l : Line)
    (h : (toLines text)[i]? = some l) :
    relationshipsAt (parseDocument text) i = (relOf (i, l)).toList := by
  unfold relationshipsAt
  rw [parseDocument_relationships]
  have := filterMap_enumL_filter relOf (fun r => r.line) relOf_line
    (toLines text) 0 i l h
  simpa using this

theorem viewsAt_parse (text : String) (i : Nat) (l : Line)
    (h : (toLines text)[i]? = some l) :
    viewsAt (parseDocument text) i = (viewOf (i, l)).toList := by
  unfold viewsAt
  rw [parseDocument_views]
  have := filterMap_enumL_filter viewOf (fun v => v.line) viewOf_line
    (toLines text) 0 i l h
  simpa using this

theorem classifyLine_of_elem (i : Nat) (l : Line)
    (m : Option String × String × Option String)
    (hskip : isSkippable (trimL l) = false)
    (hws : wsNameMatch (trimL l) = none)
    (helem : elemMatch (trimL l) = some m) :
    classifyLine i l = .elem (mkElement i m) := by
  simp [classifyLine, hskip, hws, helem]

theorem classifyLine_of_rel (i : Nat) (l : Line)
    (m : String × String × Option String × Option String)
    (hskip : isSkippable (trimL l) = false)
    (hws : wsNameMatch (trimL l) = none)
    (helem : elemMatch (trimL l) = none)
    (hrel : relMatchFull (trimL l) = some m) :
    classifyLine i l = .rel (mkRelationship i m) := by
  simp [classifyLine, hskip, hws, helem, hrel]

theorem classifyLine_skip_or_nothing (i : Nat) (l : Line)
    (hws : wsNameMatch (trimL l) = none)
    (helem : elemMatch (trimL l) = none)
    (hrel : relMatchFull (trimL l) = none)
    (hview : viewMatchFull (trimL l) = none) :
    classifyLine i l = .skip ∨ classifyLine i l = .nothing := by
  cases hsk : isSkippable (trimL l) with
  | true => left; simp [classifyLine, hsk]
  | false => right; simp [classifyLine, hsk, hws, helem, hrel, hview]

/-- C7: each line contributes at most one construct, and the element
pattern has priority over the relationship and view patterns. -/
theorem parse_line_at_most_one_construct_with_priority :
    (∀ (text : String) (i : Nat), constructsAt (parseDocument text) i ≤ 1)
    ∧ (∀ (text : String) (i : Nat) (l : Line)
        (m : Option String × String × Option String),
        (toLines text)[i]? = some l →
        isSkippable (trimL l) = false →
        wsNameMatch (trimL l) = none →
        elemMatch (trimL l) = some m →
        elementsAt (parseDocument text) i = [mkElement i m]
          ∧ relationshipsAt (parseDocument text) i = []
          ∧ viewsAt (parseDocument text) i = [])
    ∧ (∀ (text : String) (i : Nat) (l : Line)
        (m : String × String × Option String × Option String),
        (toLines text)[i]? = some l →
        isSkippable (trimL l) = false →
        wsNameMatch (trimL l) = none →
        elemMatch (trimL l) = none →
        relMatchFull (trimL l) = some m →
        relationshipsAt (parseDocument text) i = [mkRelationship i m]
          ∧ viewsAt (parseDocument text) i = []) := by
  refine ⟨?_, ?_, ?_⟩
  · intro text i
    cases h : (toLines text)[i]? with
    | none =>
      have hlen : (toLines text).length ≤ i := by
        simpa using List.getElem?_eq_none_iff.mp h
      unfold constructsAt elementsAt relationshipsAt viewsAt
      rw [parseDocument_elements, parseDocument_relationships,
        parseDocument_views]
      rw [filterMap_enumL_filter_ge elemOf (fun e => e.line) elemOf_line _ _ hlen,
        filterMap_enumL_filter_ge relOf (fun r => r.line) relOf_line _ _ hlen,
        filterMap_enumL_filter_ge viewOf (fun v => v.line) viewOf_line _ _ hlen]
      simp
    | some l =>
      unfold constructsAt
      rw [elementsAt_parse text i l h, relationshipsAt_parse text i l h,
        viewsAt_parse text i l h]
      cases hc : classifyLine i l <;> simp [elemOf, relOf, viewOf, hc]
  · intro text i l m h hskip hws helem
    have hc := classifyLine_of_elem i l m hskip hws helem
    rw [elementsAt_parse text i l h, relationshipsAt_parse text i l h,
      viewsAt_parse text i l h]
    simp [elemOf, relOf, viewOf, hc]
  · intro text i l m h hskip hws helem hrel
    have hc := classifyLine_of_rel i l m hskip hws helem hrel
    rw [relationshipsAt_parse text i l h, viewsAt_parse text i l h]
    simp [relOf, viewOf, hc]

/-- Witness for C7: a container-view-shaped line matches both the
element and the view pattern and is recorded only as an element; a
line matching both the relationship and the view pattern is recorded
only as a relationship. -/
theorem parse_line_at_most_one_construct_with_priority_witness :
    constructsAt (parseDocument "container s \"key\" \x7b") 0 ≤ 1
    ∧ (elementsAt (parseDocument "container s \"key\" \x7b") 0 =
          [mkElement 0 (none, "container", none)]
        ∧ relationshipsAt (parseDocument "container s \"key\" \x7b") 0 = []
        ∧ viewsAt (parseDocument "container s \"key\" \x7b") 0 = [])
    ∧ (relationshipsAt (parseDocument "dynamic -> x") 0 =
          [mkRelationship 0 ("dynamic", "x", none, none)]
        ∧ viewsAt (parseDocument "dynamic -> x") 0 = []) := by
  refine ⟨parse_line_at_most_one_construct_with_priority.1 _ 0,
    parse_line_at_most_one_construct_with_priority.2.1
      "container s \"key\" \x7b" 0 "container s \"key\" \x7b".data
      (none, "container", none) (by decide) (by decide) (by decide) (by decide),
    parse_line_at_most_one_construct_with_priority.2.2
      "dynamic -> x" 0 "dynamic -> x".data ("dynamic", "x", none, none)
      (by decide) (by decide) (by decide) (by decide) (by decide)⟩

/-- C9: the extractor and the diagnostic computation are total
functions of the text, and a line matching none of the four patterns
contributes no construct. -/
theorem parse_and_diagnostics_total :
    (∀ text : String, ∃ pw ds,
        parseDocument text = pw ∧ updateDiagnostics text = ds)
    ∧ (∀ (text : String) (i : Nat) (l : Line),
        (toLines text)[i]? = some l →
        wsNameMatch (trimL l) = none →
        elemMatch (trimL l) = none →
        relMatchFull (trimL l) = none →
        viewMatchFull (trimL l) = none →
        constructsAt (parseDocument text) i = 0) := by
  refine ⟨fun text => ⟨_, _, rfl, rfl⟩, ?_⟩
  intro text i l h hws helem hrel hview
  unfold constructsAt
  rw [elementsAt_parse text i l h, relationshipsAt_parse text i l h,
    viewsAt_parse text i l h]
  rcases classifyLine_skip_or_nothing i l hws helem hrel hview with hc | hc <;>
    simp [elemOf, relOf, viewOf, hc]

/-- Witness for C9 at a line made of punctuation no pattern matches. -/
theorem parse_and_diagnostics_total_witness :
    (∃ pw ds, parseDocument ":::" = pw ∧ updateDiagnostics ":::" = ds)
    ∧ constructsAt (parseDocument ":::") 0 = 0 := by
  exact ⟨parse_and_diagnostics_total.1 ":::",
    parse_and_diagnostics_total.2 ":::" 0 ":::".data (by decide) (by decide)
      (by decide) (by decide) (by decide)⟩

/-! ## C1: diagnostics on well-formed documents -/

/-- A syntactically well-formed document (workspace, one model, one
views block) whose views block contains no container/component view. -/
def wellFormedDoc : String := String.intercalate "\n"
  ["workspace \"W\" \x7b",
   "  model \x7b",
   "    u = person \"User\"",
   "    s = softwareSystem \"Sys\"",
   "    u -> s \"uses\"",
   "  \x7d",
   "  views \x7b",
   "    systemContext s \"ctx\" \x7b",
   "      include *",
   "      autoLayout tb",
   "    \x7d",
   "  \x7d",
   "\x7d"]

/-- The same well-formed document with a container view declaration
`container s "key" { ... }` inside the views block. -/
def containerViewDoc : String := String.intercalate "\n"
  ["workspace \"W\" \x7b",
   "  model \x7b",
   "    s = softwareSystem \"Sys\"",
   "  \x7d",
   "  views \x7b",
   "    container s \"key\" \x7b",
   "      include *",
   "      autoLayout tb",
   "    \x7d",
   "  \x7d",
   "\x7d"]

/-- C1: the ten checks return no diagnostic on a well-formed document
without container/component views, but on a well-formed document whose
views block holds a container view declaration, checkElementPlacement
reports an "Invalid container placement" Error for the view line (the
view line pushes a "container" context and is then treated as an
element declaration), so the diagnostic list is not empty. -/
theorem diagnostics_on_wellformed_docs :
    updateDiagnostics wellFormedDoc = []
    ∧ updateDiagnostics containerViewDoc =
        [mkDiag 5 4 5 13
          "Invalid container placement (containers must be declared inside a softwareSystem block)"
          .Error] :=
  ⟨by decide, by decide⟩

/-! ## C6: the end-to-end example -/

/-- The four-line input of the end-to-end example: the closing braces
of model and workspace are missing. -/
def endToEndInput : String :=
  "workspace \"T\" \x7b\n model \x7b\n u = person \"User\"\n\x7d"

/-- C6: on the truncated document the diagnostic computation reports an
Error whose message contains "unclosed brace", and the extractor still
returns the element u/"User" on line 2. -/
theorem end_to_end_unclosed_example :
    (∃ d ∈ updateDiagnostics endToEndInput,
        d.severity = .Error ∧ strContains d.message "unclosed brace" = true)
    ∧ (∃ e ∈ (parseDocument endToEndInput).elements,
        e.identifier = "u" ∧ e.name = "User" ∧ e.line = 2) := by
  decide

/-! ## C3: brace balance -/

theorem isPrefixOf_append_self (l t : List Char) :
    l.isPrefixOf (l ++ t) = true := by
  induction l with
  | nil => simp [List.isPrefixOf]
  | cons c cs ih => simp [List.isPrefixOf, ih]

theorem isPrefixOf_append_left : ∀ (sub x y : List Char),
    sub.isPrefixOf x = true → sub.isPrefixOf (x ++ y) = true := by
  intro sub
  induction sub with
  | nil => intro x y _; simp [List.isPrefixOf]
  | cons s ss ih =>
    intro x y h
    cases x with
    | nil => simp [List.isPrefixOf] at h
    | cons a as =>
      simp only [List.cons_append, List.isPrefixOf, Bool.and_eq_true] at h ⊢
      exact ⟨h.1, ih as y h.2⟩

theorem containsSub_prefix (l sub : List Char)
    (h : sub.isPrefixOf l = true) : containsSub l sub = true := by
  unfold containsSub
  rw [List.any_eq_true]
  exact ⟨l, (List.mem_tails l l).mpr (List.suffix_refl l), h⟩

theorem containsSub_append_left (l t sub : List Char)
    (h : containsSub l sub = true) : containsSub (l ++ t) sub = true := by
  unfold containsSub at h ⊢
  rw [List.any_eq_true] at h ⊢
  rcases h with ⟨x, hx, hpre⟩
  rcases (List.mem_tails x l).mp hx with ⟨pre, rfl⟩
  refine ⟨x ++ t, (List.mem_tails _ _).mpr ⟨pre, by rw [List.append_assoc]⟩, ?_⟩
  exact isPrefixOf_append_left _ _ _ hpre

theorem unclosedMsg_contains (N : Nat) :
    strContains (unclosedMsg N) (toString N) = true := by
  unfold unclosedMsg strContains
  apply containsSub_prefix
  simp only [String.data_append, List.append_assoc]
  exact isPrefixOf_append_self _ _

theorem unclosedMsg_one : unclosedMsg 1 = "1 unclosed brace" := by decide

theorem unclosedMsg_plural (N : Nat) (h : 1 < N) :
    unclosedMsg N = toString N ++ " unclosed braces" := by
  unfold unclosedMsg
  rw [if_pos h, String.append_assoc]
  have hs : (" unclosed brace" : String) ++ "s" = " unclosed braces" := by decide
  rw [hs]

theorem unclosedMsg_beq_unexpected (N : Nat) :
    (unclosedMsg N == "Unexpected closing brace") = false := by
  cases N with
  | zero => decide
  | succ n =>
    cases n with
    | zero => decide
    | succ k =>
      rw [unclosedMsg_plural (k + 2) (by omega)]
      apply beq_eq_false_iff_ne.mpr
      intro hc
      have hd : (toString (k + 2) ++ " unclosed braces").data =
          ("Unexpected closing brace" : String).data :=
        congrArg String.data hc
      rw [String.data_append] at hd
      have hne : (" unclosed braces" : String).data ≠ [] := by decide
      have hlast : ((toString (k + 2)).data ++
          (" unclosed braces" : String).data).getLast? = some 's' := by
        rw [List.getLast?_append_of_ne_nil _ hne]
        decide
      rw [hd] at hlast
      exact absurd hlast (by decide)

theorem filter_unexpected_aux (b : Bool) (li li2 : Nat) (ll : Int)
    (msg : String) (hmsg : (msg == "Unexpected closing brace") = false) :
    ((if b = true then [mkDiag li 0 li2 ll msg .Error] else []).filter
        (fun d => d.message == "Unexpected closing brace")) = [] := by
  cases b
  · simp
  · simp [mkDiag, hmsg]

/-- C3: when the scan finds no unexpected closing brace, ends outside a
block comment, and leaves N > 0 opening braces unmatched, the check
returns exactly one Error on the last line spanning its full width,
whose message contains N and is pluralized correctly; when the scan
finds exactly one unexpected closing brace, exactly one "Unexpected
closing brace" Error at exactly that character is reported; and with
final depth 0 (the reset rule) no unclosed-brace report is added. -/
theorem brace_balance_characterization :
    (∀ (text : String) (N : Nat),
        braceNegs (toLines text) = [] →
        braceDepth (toLines text) = N →
        0 < N →
        braceInBC (toLines text) = false →
        checkBraceBalance (toLines text) =
          [mkDiag (lastLineIdx (toLines text)) 0 (lastLineIdx (toLines text))
            (lastLineLen (toLines text)) (unclosedMsg N) .Error]
        ∧ strContains (unclosedMsg N) (toString N) = true
        ∧ (N = 1 → unclosedMsg N = "1 unclosed brace")
        ∧ (1 < N → unclosedMsg N = toString N ++ " unclosed braces"))
    ∧ (∀ (text : String) (i j : Nat),
        braceNegs (toLines text) =
          [mkDiag i j i (j + 1) "Unexpected closing brace" .Error] →
        (checkBraceBalance (toLines text)).filter
            (fun d => d.message == "Unexpected closing brace") =
          [mkDiag i j i (j + 1) "Unexpected closing brace" .Error])
    ∧ (∀ text : String,
        braceDepth (toLines text) = 0 →
        checkBraceBalance (toLines text) =
          braceNegs (toLines text)
            ++ (if braceInBC (toLines text) then
                  [mkDiag (lastLineIdx (toLines text)) 0
                    (lastLineIdx (toLines text)) (lastLineLen (toLines text))
                    "Unterminated block comment" .Error]
                else [])) := by
  refine ⟨?_, ?_, ?_⟩
  · intro text N h1 h2 h3 h4
    refine ⟨?_, unclosedMsg_contains N,
      fun hN => by rw [hN]; exact unclosedMsg_one, unclosedMsg_plural N⟩
    unfold checkBraceBalance
    rw [h1, h2, h4]
    simp [h3]
  · intro text i j h
    unfold checkBraceBalance
    rw [h]
    simp only [List.filter_append]
    have hmain : [mkDiag i j i (j + 1) "Unexpected closing brace"
        .Error].filter (fun d => d.message == "Unexpected closing brace") =
        [mkDiag i j i (j + 1) "Unexpected closing brace" .Error] := by
      simp [mkDiag]
    have hu : (("Unterminated block comment" : String) ==
        "Unexpected closing brace") = false := by decide
    rw [hmain, filter_unexpected_aux _ _ _ _ _
        (unclosedMsg_beq_unexpected (braceDepth (toLines text))),
      filter_unexpected_aux _ _ _ _ _ hu]
    simp
  · intro text h
    unfold checkBraceBalance
    rw [h]
    simp

/-- Witness for C3 at a two-brace document, a stray closing brace, and
the same stray closing brace for the no-cascade part. -/
theorem brace_balance_characterization_witness :
    checkBraceBalance (toLines "\x7b\n\x7b") =
      [mkDiag 1 0 1 1 (unclosedMsg 2) .Error]
    ∧ (checkBraceBalance (toLines "\x7d")).filter
        (fun d => d.message == "Unexpected closing brace") =
      [mkDiag 0 0 0 1 "Unexpected closing brace" .Error]
    ∧ checkBraceBalance (toLines "\x7d") =
        braceNegs (toLines "\x7d")
          ++ (if braceInBC (toLines "\x7d") then
                [mkDiag (lastLineIdx (toLines "\x7d")) 0
                  (lastLineIdx (toLines "\x7d")) (lastLineLen (toLines "\x7d"))
                  "Unterminated block comment" .Error]
              else []) := by
  refine ⟨?_, brace_balance_characterization.2.1 "\x7d" 0 0 (by decide),
    brace_balance_characterization.2.2 "\x7d" (by decide)⟩
  have h := (brace_balance_characterization.1 "\x7b\n\x7b" 2 (by decide)
    (by decide) (by decide) (by decide)).1
  have h1 : lastLineIdx (toLines "\x7b\n\x7b") = 1 := by decide
  have h2 : lastLineLen (toLines "\x7b\n\x7b") = 1 := by decide
  rw [h1, h2] at h
  exact h

/-! ## C4: self-referencing relationships -/

theorem mem_ite_singleton {α : Type} {P : Prop} [Decidable P] {d x : α}
    (h : d ∈ if P then [x] else []) : d = x := by
  split at h
  · simpa using h
  · simp at h

theorem isSkippable_cases (t : Line) (h : isSkippable t = true) :
    t = [] ∨ ∃ rest, t = '/' :: rest := by
  cases t with
  | nil => exact Or.inl rfl
  | cons c rest =>
    right
    refine ⟨rest, ?_⟩
    suffices hc : c = '/' by rw [hc]
    unfold isSkippable at h
    simp only [List.isEmpty_cons, Bool.or_false, Bool.or_eq_true] at h
    rcases h with h | h <;>
      (simp only [List.isPrefixOf, Bool.and_eq_true, beq_iff_eq] at h
       exact h.1.symm)

theorem relMatchD_not_skippable (t : Line)
    (m : String × String) (h : relMatchD t = some m) :
    isSkippable t = false := by
  cases hsk : isSkippable t
  · rfl
  · exfalso
    rcases isSkippable_cases t hsk with rfl | ⟨rest, rfl⟩
    · simp [relMatchD, dropWsL, takeWord] at h
    · simp [relMatchD, dropWsL, isWs, takeWord, isWordChar] at h

theorem relLineDiags_startLine (idMap : String → Option IdentifierInfo)
    (j : Nat) (l : Line) (d : Diagnostic)
    (hd : d ∈ relLineDiags idMap j l) : d.startLine = j := by
  simp only [relLineDiags] at hd
  split at hd
  · simp at hd
  · split at hd
    · simp only [List.append_assoc, List.mem_append] at hd
      rcases hd with hd | hd | hd <;> (cases mem_ite_singleton hd; rfl)
    · simp at hd

/-- C4: for a declared identifier a and a line matching a -> a, the
relationship-reference check reports, for that line, exactly one
diagnostic: a Warning whose message contains "self-referencing"
(up to the capitalisation the source actually uses), and in
particular no undefined-source or undefined-target Error. -/
theorem self_reference_single_warning :
    ∀ (text : String) (i : Nat) (l : Line) (a : String),
      (toLines text)[i]? = some l →
      relMatchD (trimL l) = some (a, a) →
      (buildIdentifierMap (toLines text) a).isSome = true →
      (checkRelationshipReferences (toLines text)
          (buildIdentifierMap (toLines text))).filter
          (fun d => d.startLine == i) =
        [mkDiag i (jsIndexOf l a.data) i (l.length : Int) (selfRefMsg a)
          .Warning]
      ∧ strContainsCI (selfRefMsg a) "self-referencing" = true
      ∧ strContains (selfRefMsg a) "Self-referencing" = true := by
  intro text i l a h hrel hdecl
  have hskip := relMatchD_not_skippable _ _ hrel
  have hnone : (buildIdentifierMap (toLines text) a).isNone = false := by
    cases hh : buildIdentifierMap (toLines text) a
    · rw [hh] at hdecl; simp at hdecl
    · simp
  have hline : relLineDiags (buildIdentifierMap (toLines text)) i l =
      [mkDiag i (jsIndexOf l a.data) i (l.length : Int) (selfRefMsg a)
        .Warning] := by
    simp only [relLineDiags, hskip, Bool.false_eq_true, if_false, hrel, hnone,
      hdecl]
    simp
  refine ⟨?_, ?_, ?_⟩
  · unfold checkRelationshipReferences
    have := flatMap_enumL_filter
      (relLineDiags (buildIdentifierMap (toLines text)))
      (relLineDiags_startLine (buildIdentifierMap (toLines text)))
      (toLines text) 0 i l h
    simp only [Nat.zero_add] at this
    rw [this, hline]
  · unfold strContainsCI selfRefMsg
    apply containsSub_prefix
    simp only [String.data_append, List.map_append, List.append_assoc]
    apply isPrefixOf_append_left
    decide
  · unfold strContains selfRefMsg
    apply containsSub_prefix
    simp only [String.data_append, List.append_assoc]
    apply isPrefixOf_append_left
    decide

/-- Witness for C4 on the document a = person "P" followed by a -> a. -/
theorem self_reference_single_warning_witness :
    (checkRelationshipReferences (toLines "a = person \"P\"\na -> a")
        (buildIdentifierMap (toLines "a = person \"P\"\na -> a"))).filter
        (fun d => d.startLine == 1) =
      [mkDiag 1 (jsIndexOf "a -> a".data "a".data) 1
        (("a -> a".data : Line).length : Int) (selfRefMsg "a") .Warning]
    ∧ strContainsCI (selfRefMsg "a") "self-referencing" = true
    ∧ strContains (selfRefMsg "a") "Self-referencing" = true :=
  self_reference_single_warning "a = person \"P\"\na -> a" 1 "a -> a".data "a"
    (by decide) (by decide) (by decide)

/-! ## C8: container view scoped to a person -/

theorem viewScopeMatch_not_skippable (t : Line)
    (m : String × Option String) (h : viewScopeMatch t = some m) :
    isSkippable t = false := by
  cases hsk : isSkippable t
  · rfl
  · exfalso
    rcases isSkippable_cases t hsk with rfl | ⟨rest, rfl⟩
    · rw [(by decide : viewScopeMatch ([] : Line) = none)] at h
      exact Option.noConfusion h
    · have halt : altCI viewKeywords (dropWsL ('/' :: rest)) = none := by
        have hdw : dropWsL ('/' :: rest) = '/' :: rest := by
          unfold dropWsL
          rw [List.dropWhile_cons, if_neg (by decide)]
        rw [hdw]
        simp [altCI, litCI, lowerChar, viewKeywords]
      unfold viewScopeMatch at h
      rw [halt] at h
      exact Option.noConfusion h

theorem viewLineDiags_startLine (idMap : String → Option IdentifierInfo)
    (j : Nat) (l : Line) (d : Diagnostic)
    (hd : d ∈ viewLineDiags idMap j l) : d.startLine = j := by
  simp only [viewLineDiags] at hd
  split at hd
  · simp at hd
  · split at hd
    · split at hd
      · split at hd
        · simp only [List.mem_singleton] at hd
          rw [hd]
          rfl
        · split at hd
          · simp only [List.mem_singleton] at hd
            rw [hd]
            rfl
          · simp only [List.mem_append] at hd
            rcases hd with hd | hd <;> (cases mem_ite_singleton hd; rfl)
      · split at hd
        · split at hd
          · simp only [List.mem_singleton] at hd
            rw [hd]
            rfl
          · simp at hd
        · simp at hd
    · simp at hd

/-- C8: a container view whose scope identifier is declared as a person
produces, for that line, exactly one Error from the view-scope check,
whose message contains both "container view" and "softwareSystem". -/
theorem container_view_person_scope_mismatch :
    ∀ (text : String) (i : Nat) (l : Line) (kwText s : String)
      (info : IdentifierInfo),
      (toLines text)[i]? = some l →
      viewScopeMatch (trimL l) = some (kwText, some s) →
      lowerStr kwText = "container" →
      buildIdentifierMap (toLines text) s = some info →
      info.type = "person" →
      (checkViewScopes (toLines text)
          (buildIdentifierMap (toLines text))).filter
          (fun d => d.startLine == i) =
        [mkDiag i (jsIndexOf l s.data) i (jsIndexOf l s.data + s.length)
          (containerMismatchMsg s "person") .Error]
      ∧ strContains (containerMismatchMsg s "person") "container view" = true
      ∧ strContains (containerMismatchMsg s "person") "softwareSystem" =
          true := by
  intro text i l kwText s info h hview hkw hmap hty
  have hskip := viewScopeMatch_not_skippable _ _ hview
  have hline : viewLineDiags (buildIdentifierMap (toLines text)) i l =
      [mkDiag i (jsIndexOf l s.data) i (jsIndexOf l s.data + s.length)
        (containerMismatchMsg s "person") .Error] := by
    simp only [viewLineDiags, hskip, Bool.false_eq_true, if_false, hview, hkw,
      hmap, hty]
    simp
  refine ⟨?_, ?_, ?_⟩
  · unfold checkViewScopes
    have := flatMap_enumL_filter
      (viewLineDiags (buildIdentifierMap (toLines text)))
      (viewLineDiags_startLine (buildIdentifierMap (toLines text)))
      (toLines text) 0 i l h
    simp only [Nat.zero_add] at this
    rw [this, hline]
  · unfold strContains containerMismatchMsg
    simp only [String.data_append, List.append_assoc]
    apply containsSub_append_left
    decide
  · unfold strContains containerMismatchMsg
    simp only [String.data_append, List.append_assoc]
    apply containsSub_append_left
    decide

/-- Witness for C8 on a person u and the view line container u "key". -/
theorem container_view_person_scope_mismatch_witness :
    (checkViewScopes (toLines "u = person \"User\"\ncontainer u \"key\" \x7b")
        (buildIdentifierMap
          (toLines "u = person \"User\"\ncontainer u \"key\" \x7b"))).filter
        (fun d => d.startLine == 1) =
      [mkDiag 1 (jsIndexOf "container u \"key\" \x7b".data "u".data) 1
        (jsIndexOf "container u \"key\" \x7b".data "u".data +
          ("u" : String).length)
        (containerMismatchMsg "u" "person") .Error]
    ∧ strContains (containerMismatchMsg "u" "person") "container view" = true
    ∧ strContains (containerMismatchMsg "u" "person") "softwareSystem" =
        true :=
  container_view_person_scope_mismatch
    "u = person \"User\"\ncontainer u \"key\" \x7b" 1
    "container u \"key\" \x7b".data "container" "u" ⟨0, "person"⟩
    (by decide) (by decide) (by decide) (by decide) (by decide)

theorem mkString_ne_empty (w : List Char) (hw : w ≠ []) : String.mk w ≠ "" := by
  intro hc
  apply hw
  have hdata : (String.mk w).data = "".data := congrArg String.data hc
  simpa using hdata

theorem takeWord_ne_nil (l : Line) (w : List Char) (r : Line)
    (h : takeWord l = some (w, r)) : w ≠ [] := by
  simp only [takeWord] at h
  split at h
  · exact Option.noConfusion h
  · rename_i hne
    cases h
    intro hnil
    rw [hnil] at hne
    simp at hne

theorem stripWs_ne_empty (s : String) (h : ∃ c ∈ s.data, isWs c = false) :
    stripWs s ≠ "" := by
  rcases h with ⟨c, hc, hw⟩
  apply mkString_ne_empty
  intro hnil
  have hmem : c ∈ s.data.filter (fun c => !isWs c) :=
    List.mem_filter.mpr ⟨hc, by simp [hw]⟩
  rw [hnil] at hmem
  simp at hmem

theorem elemWithId_id (t0 : Line) (m : Option String × String × Option String)
    (h : elemWithId t0 = some m) : ∃ id, m.1 = some id ∧ id ≠ "" := by
  unfold elemWithId at h
  split at h
  · rename_i w r1 htw
    split at h
    · split at h
      · cases h
        exact ⟨String.mk w, rfl,
          mkString_ne_empty w (takeWord_ne_nil t0 w r1 htw)⟩
      · exact Option.noConfusion h
    · exact Option.noConfusion h
  · exact Option.noConfusion h

theorem elemMatch_id (t : Line) (m : Option String × String × Option String)
    (h : elemMatch t = some m) :
    m.1 = none ∨ ∃ id, m.1 = some id ∧ id ≠ "" := by
  simp only [elemMatch] at h
  split at h
  · rename_i m1 hw
    cases h
    exact Or.inr (elemWithId_id _ _ hw)
  · split at h
    · cases h
      exact Or.inl rfl
    · exact Option.noConfusion h

theorem classifyLine_elem_inv (i : Nat) (l : Line) (e : ParsedElement)
    (h : classifyLine i l = .elem e) :
    ∃ m, elemMatch (trimL l) = some m ∧ e = mkElement i m := by
  simp only [classifyLine] at h
  split at h
  · exact LineItem.noConfusion h
  · split at h
    · exact LineItem.noConfusion h
    · split at h
      · rename_i m hm
        cases h
        exact ⟨m, hm, rfl⟩
      · split at h
        · exact LineItem.noConfusion h
        · split at h
          · exact LineItem.noConfusion h
          · exact LineItem.noConfusion h

/-- C2 counterexample: on the line person " " the extracted element has
the non-empty name " " but the empty identifier, so "identifier is
non-empty whenever name is non-empty" fails as stated. -/
theorem identifier_empty_despite_nonempty_name :
    (parseDocument "person \" \"").elements =
      [{ identifier := "", type := "person", name := " ", line := 0 }]
    ∧ (" " : String) ≠ "" :=
  ⟨by decide, by decide⟩

/-- C2 (amended): an element matched without the optional id prefix
gets the name with every whitespace character stripped as identifier
(possibly empty); and every element parseDocument produces whose name
contains at least one non-whitespace character has a non-empty
identifier. -/
theorem identifier_fallback :
    (∀ (i : Nat) (m : Option String × String × Option String), m.1 = none →
        (mkElement i m).identifier = stripWs ((mkElement i m).name))
    ∧ (∀ (text : String) (e : ParsedElement),
        e ∈ (parseDocument text).elements →
        (∃ c ∈ e.name.data, isWs c = false) →
        e.identifier ≠ "") := by
  constructor
  · intro i m hid
    obtain ⟨m1, kw, nm⟩ := m
    cases hid
    cases nm with
    | none => simp [mkElement, jsOr, stripWs]
    | some nm =>
      by_cases hnm : nm = ""
      · simp [mkElement, jsOr, hnm, stripWs]
      · by_cases hs : stripWs nm = "" <;>
          simp [mkElement, jsOr, hnm, hs]
  · intro text e hmem hnm
    rw [parseDocument_elements] at hmem
    rcases List.mem_filterMap.mp hmem with ⟨p, _, hpe⟩
    have hclass : classifyLine p.1 p.2 = .elem e := by
      unfold elemOf at hpe
      split at hpe
      · cases hpe; assumption
      · exact Option.noConfusion hpe
    rcases classifyLine_elem_inv p.1 p.2 e hclass with ⟨m, hm, rfl⟩
    rcases elemMatch_id _ _ hm with hid | ⟨id, hid, hne⟩
    · obtain ⟨m1, kw, nm⟩ := m
      cases hid
      cases nm with
      | none =>
        simp only [mkElement, jsOr] at hnm
        simp at hnm
      | some nm =>
        by_cases hnm0 : nm = ""
        · simp only [mkElement, jsOr, hnm0] at hnm
          simp at hnm
        · simp only [mkElement, jsOr, hnm0, Option.map_some, if_neg hnm0] at hnm ⊢
          have hs := stripWs_ne_empty nm (by simpa using hnm)
          simp [hs]
    · simp [mkElement, jsOr, hid, hne]

/-- Witness for C2 (amended) at person "Alice Smith" and person "Alice". -/
theorem identifier_fallback_witness :
    (mkElement 0 (none, "person", some "Alice Smith")).identifier =
      stripWs ((mkElement 0 (none, "person", some "Alice Smith")).name)
    ∧ ({ identifier := "Alice", type := "person", name := "Alice", line := 0 } :
        ParsedElement).identifier ≠ "" := by
  refine ⟨identifier_fallback.1 0 (none, "person", some "Alice Smith") rfl,
    identifier_fallback.2 "person \"Alice\""
      { identifier := "Alice", type := "person", name := "Alice", line := 0 }
      (by decide) ⟨'A', by decide, by decide⟩⟩

/-! ## C10: last declaration wins in the identifier map, first wins in
the duplicate check -/

theorem containsSub_append_right (l r sub : List Char)
    (h : containsSub r sub = true) : containsSub (l ++ r) sub = true := by
  unfold containsSub at h ⊢
  rw [List.any_eq_true] at h ⊢
  rcases h with ⟨x, hx, hpre⟩
  have hsuf : x <:+ r := (List.mem_tails x r).mp hx
  exact ⟨x, (List.mem_tails _ _).mpr (hsuf.trans ⟨l, rfl⟩), hpre⟩

/-- The identifier declarations of one enumerated line binding a. -/
def matchA (a : String) (p : Nat × Line) : Option (Nat × String) :=
  match idDeclMatch p.2 with
  | some (id, kw) => if id = a then some (p.1, lowerStr kw) else none
  | none => none

/-- All declarations of identifier a, in line order, with their
lower-cased element types. -/
def declsOf (lines : List Line) (a : String) : List (Nat × String) :=
  (enumL 0 lines).filterMap (matchA a)

theorem bimGo_last :
    ∀ (E : List (Nat × Line)) (m : String → Option IdentifierInfo)
      (a : String),
      bimGo m E a =
        (match (E.filterMap (matchA a)).getLast? with
         | some p => some ⟨p.1, p.2⟩
         | none => m a) := by
  intro E
  induction E with
  | nil => intro m a; rfl
  | cons p rest ih =>
    intro m a
    obtain ⟨k, l⟩ := p
    cases hm : idDeclMatch l with
    | none =>
      simp only [bimGo, hm, List.filterMap_cons]
      simp only [show matchA a (k, l) = none from by simp [matchA, hm]]
      exact ih m a
    | some idkw =>
      obtain ⟨id, kw⟩ := idkw
      simp only [bimGo, hm, List.filterMap_cons]
      by_cases hid : id = a
      · subst hid
        simp only [show matchA id (k, l) = some (k, lowerStr kw) from by
          simp [matchA, hm]]
        rw [ih]
        cases hr : rest.filterMap (matchA id) with
        | nil => simp [hr]
        | cons q qs =>
          rw [List.getLast?_cons_cons]
          cases hql : (q :: qs).getLast? with
          | none =>
            rw [List.getLast?_eq_none_iff] at hql
            exact absurd hql (by simp)
          | some x => rfl
      · simp only [show matchA a (k, l) = none from by simp [matchA, hm, hid]]
        rw [ih]
        rw [if_neg (fun hc => hid hc.symm)]

theorem dupGo_mem_of_seen :
    ∀ (E : List (Nat × Line)) (seen : String → Option Nat) (a : String)
      (i0 j : Nat) (tj : String),
      seen a = some i0 →
      E.filterMap (matchA a) = [(j, tj)] →
      ∃ d ∈ dupGo seen E,
        d.startLine = j ∧ d.message = dupMsg a i0 ∧
          d.severity = .Warning := by
  intro E
  induction E with
  | nil => intro seen a i0 j tj _ hE; simp at hE
  | cons p rest ih =>
    intro seen a i0 j tj hseen hE
    obtain ⟨k, l⟩ := p
    simp only [List.filterMap_cons] at hE
    cases hm : idDeclMatch l with
    | none =>
      rw [show matchA a (k, l) = none from by simp [matchA, hm]] at hE
      simp only [dupGo, hm]
      exact ih seen a i0 j tj hseen hE
    | some idkw =>
      obtain ⟨id, kw⟩ := idkw
      by_cases hid : id = a
      · subst hid
        rw [show matchA id (k, l) = some (k, lowerStr kw) from by
          simp [matchA, hm]] at hE
        injection hE with h1 h2
        injection h1 with hk hty
        subst hk
        simp only [dupGo, hm, hseen]
        exact ⟨_, List.mem_cons_self _ _, rfl, rfl, rfl⟩
      · rw [show matchA a (k, l) = none from by simp [matchA, hm, hid]] at hE
        simp only [dupGo, hm]
        cases hs : seen id with
        | some f =>
          obtain ⟨d, hd, hprops⟩ := ih seen a i0 j tj hseen hE
          exact ⟨d, List.mem_cons_of_mem _ hd, hprops⟩
        | none =>
          apply ih _ a i0 j tj _ hE
          show (if a = id then some k else seen a) = some i0
          rw [if_neg (fun hc => hid hc.symm), hseen]

theorem dupGo_mem_of_two :
    ∀ (E : List (Nat × Line)) (seen : String → Option Nat) (a : String)
      (i j : Nat) (ti tj : String),
      seen a = none →
      E.filterMap (matchA a) = [(i, ti), (j, tj)] →
      ∃ d ∈ dupGo seen E,
        d.startLine = j ∧ d.message = dupMsg a i ∧
          d.severity = .Warning := by
  intro E
  induction E with
  | nil => intro seen a i j ti tj _ hE; simp at hE
  | cons p rest ih =>
    intro seen a i j ti tj hseen hE
    obtain ⟨k, l⟩ := p
    simp only [List.filterMap_cons] at hE
    cases hm : idDeclMatch l with
    | none =>
      rw [show matchA a (k, l) = none from by simp [matchA, hm]] at hE
      simp only [dupGo, hm]
      exact ih seen a i j ti tj hseen hE
    | some idkw =>
      obtain ⟨id, kw⟩ := idkw
      by_cases hid : id = a
      · subst hid
        rw [show matchA id (k, l) = some (k, lowerStr kw) from by
          simp [matchA, hm]] at hE
        injection hE with h1 h2
        injection h1 with hk hty
        subst hk
        simp only [dupGo, hm, hseen]
        apply dupGo_mem_of_seen rest _ id k j tj _ h2
        show (if id = id then some k else seen id) = some k
        rw [if_pos rfl]
      · rw [show matchA a (k, l) = none from by simp [matchA, hm, hid]] at hE
        simp only [dupGo, hm]
        cases hs : seen id with
        | some f =>
          obtain ⟨d, hd, hprops⟩ := ih seen a i j ti tj hseen hE
          exact ⟨d, List.mem_cons_of_mem _ hd, hprops⟩
        | none =>
          apply ih _ a i j ti tj _ hE
          show (if a = id then some k else seen a) = none
          rw [if_neg (fun hc => hid hc.symm), hseen]

theorem dupMsg_contains_first_line (a : String) (i : Nat) :
    strContains (dupMsg a i) (toString (i + 1)) = true := by
  unfold strContains dupMsg
  simp only [String.data_append, List.append_assoc]
  apply containsSub_append_right
  apply containsSub_append_right
  apply containsSub_append_right
  apply containsSub_prefix
  exact isPrefixOf_append_self _ _

/-- C10: when a is declared exactly twice, the identifier map used by
the reference checks binds a to the last declaration's line and type,
while the duplicate check reports a Warning on the later line whose
message cites the first declaration's 1-indexed line. -/
theorem identifier_map_last_wins_duplicate_cites_first :
    ∀ (lines : List Line) (a : String) (i j : Nat) (ti tj : String),
      declsOf lines a = [(i, ti), (j, tj)] →
      buildIdentifierMap lines a = some ⟨j, tj⟩
      ∧ (∃ d ∈ checkDuplicateIdentifiers lines,
          d.startLine = j ∧ d.message = dupMsg a i ∧ d.severity = .Warning)
      ∧ strContains (dupMsg a i) (toString (i + 1)) = true := by
  intro lines a i j ti tj h
  unfold declsOf at h
  refine ⟨?_, ?_, dupMsg_contains_first_line a i⟩
  · unfold buildIdentifierMap
    rw [bimGo_last, h]
    rfl
  · exact dupGo_mem_of_two (enumL 0 lines) _ a i j ti tj rfl h

/-- Witness for C10: a bound to person on line 0 and to softwareSystem
on line 1. -/
theorem identifier_map_last_wins_duplicate_cites_first_witness :
    buildIdentifierMap (toLines "a = person \"P\"\na = softwareSystem \"S\"")
        "a" = some ⟨1, "softwaresystem"⟩
    ∧ (∃ d ∈ checkDuplicateIdentifiers
          (toLines "a = person \"P\"\na = softwareSystem \"S\""),
        d.startLine = 1 ∧ d.message = dupMsg "a" 0 ∧ d.severity = .Warning)
    ∧ strContains (dupMsg "a" 0) (toString (0 + 1)) = true :=
  identifier_map_last_wins_duplicate_cites_first
    (toLines "a = person \"P\"\na = softwareSystem \"S\"") "a" 0 1
    "person" "softwaresystem" (by decide)

/-! ## C5: the keyword suggester and the Levenshtein distance

levSpec is the textbook recursive Levenshtein edit distance, the
reference the DP implementation is checked against. -/

def levSpec : List Char → List Char → Nat
  | [], ys => ys.length
  | _ :: xs, [] => xs.length + 1
  | x :: xs, y :: ys =>
    if x = y then levSpec xs ys
    else 1 + min (levSpec xs ys)
      (min (levSpec (x :: xs) ys) (levSpec xs (y :: ys)))
termination_by xs ys => xs.length + ys.length

theorem levSpec_nil_left (ys : List Char) : levSpec [] ys = ys.length := by
  simp [levSpec]

theorem levSpec_nil_right (xs : List Char) : levSpec xs [] = xs.length := by
  cases xs <;> simp [levSpec]

theorem levSpec_cons_cons (x y : Char) (xs ys : List Char) :
    levSpec (x :: xs) (y :: ys) =
      if x = y then levSpec xs ys
      else 1 + min (levSpec xs ys)
        (min (levSpec (x :: xs) ys) (levSpec xs (y :: ys))) := by
  simp [levSpec]

set_option maxHeartbeats 800000 in
/-- The edit distance also satisfies the last-character recurrence. -/
theorem levSpec_snoc : (xs ys : List Char) → (x y : Char) →
    levSpec (xs ++ [x]) (ys ++ [y]) =
      (if x = y then levSpec xs ys
       else 1 + min (levSpec xs ys)
         (min (levSpec (xs ++ [x]) ys) (levSpec xs (ys ++ [y]))))
  | [], [], x, y => by
    simp only [List.nil_append]
    simp only [levSpec_cons_cons, levSpec_nil_left, levSpec_nil_right,
      List.length_nil, List.length_cons]
  | [], b :: ys', x, y => by
    have ih := levSpec_snoc [] ys' x y
    simp only [List.nil_append] at ih ⊢
    simp only [List.cons_append]
    simp only [levSpec_cons_cons, levSpec_nil_left, List.length_append,
      List.length_cons, List.length_nil] at ih ⊢
    rw [ih]
    split_ifs <;> omega
  | a :: xs', [], x, y => by
    have ih := levSpec_snoc xs' [] x y
    simp only [List.nil_append] at ih ⊢
    simp only [List.cons_append]
    simp only [levSpec_cons_cons, levSpec_nil_left, levSpec_nil_right,
      List.length_append, List.length_cons, List.length_nil] at ih ⊢
    rw [ih]
    split_ifs <;> omega
  | a :: xs', b :: ys', x, y => by
    have ih1 := levSpec_snoc xs' ys' x y
    have ih2 := levSpec_snoc (a :: xs') ys' x y
    have ih3 := levSpec_snoc xs' (b :: ys') x y
    simp only [List.cons_append] at ih1 ih2 ih3 ⊢
    simp only [levSpec_cons_cons] at ih2 ih3 ⊢
    rw [ih1, ih2, ih3]
    clear ih1 ih2 ih3
    generalize levSpec xs' ys' = p1
    generalize levSpec (a :: xs') ys' = p2
    generalize levSpec xs' (b :: ys') = p3
    generalize levSpec (xs' ++ [x]) ys' = p4
    generalize levSpec xs' (ys' ++ [y]) = p5
    generalize levSpec (a :: (xs' ++ [x])) ys' = p6
    generalize levSpec (a :: xs') (ys' ++ [y]) = p7
    generalize levSpec (xs' ++ [x]) (b :: ys') = p8
    generalize levSpec xs' (b :: (ys' ++ [y])) = p9
    have hA : ∀ u v w : Nat, 1 + u ⊓ (v ⊓ w) = (1 + u) ⊓ ((1 + v) ⊓ (1 + w)) :=
      fun u v w => by omega
    split_ifs <;>
      first
        | rfl
        | (simp only [hA]
           ac_rfl)
termination_by xs ys _ _ => xs.length + ys.length

/-- The edit distance is invariant under reversing both strings. -/
theorem levSpec_reverse : (xs ys : List Char) →
    levSpec xs.reverse ys.reverse = levSpec xs ys
  | [], ys => by
    simp [levSpec_nil_left]
  | x :: xs', [] => by
    simp [levSpec_nil_right, levSpec_nil_left]
  | x :: xs', y :: ys' => by
    rw [List.reverse_cons, List.reverse_cons, levSpec_snoc,
      levSpec_cons_cons x y xs' ys']
    rw [levSpec_reverse xs' ys']
    rw [show xs'.reverse ++ [x] = (x :: xs').reverse from
      (List.reverse_cons x xs').symm]
    rw [show ys'.reverse ++ [y] = (y :: ys').reverse from
      (List.reverse_cons y ys').symm]
    rw [levSpec_reverse (x :: xs') ys', levSpec_reverse xs' (y :: ys')]
termination_by xs ys => xs.length + ys.length

/-- The edit distance is symmetric. -/
theorem levSpec_comm : (xs ys : List Char) → levSpec xs ys = levSpec ys xs
  | [], ys => by simp [levSpec_nil_left, levSpec_nil_right]
  | x :: xs', [] => by simp [levSpec_nil_left, levSpec_nil_right]
  | x :: xs', y :: ys' => by
    rw [levSpec_cons_cons x y, levSpec_cons_cons y x]
    rw [levSpec_comm xs' ys', levSpec_comm (x :: xs') ys',
      levSpec_comm xs' (y :: ys')]
    by_cases hxy : x = y
    · simp [hxy]
    · rw [if_neg hxy, if_neg (fun hc => hxy hc.symm)]
      omega
termination_by xs ys => xs.length + ys.length

/-! The DP rows of levenshteinDistance, characterized: after consuming the
reversed b-prefix u, the row past its head holds the distances from u to
each reversed a-prefix. -/

/-- The tail of a DP row: distances from u to x1..xk reversed onto v,
for each prefix x1..xk of xs. -/
def colDists (u : List Char) : List Char → List Char → List Nat
  | _, [] => []
  | v, x :: xs => levSpec u (x :: v) :: colDists u (x :: v) xs

theorem colDists_nil_u : (xs v : List Char) →
    colDists [] v xs = List.range' (v.length + 1) xs.length
  | [], v => rfl
  | x :: xs, v => by
    rw [colDists, colDists_nil_u xs (x :: v), levSpec_nil_left]
    simp [List.range'_succ]

theorem colDists_getLastD (u : List Char) : (xs v : List Char) → (d : Nat) →
    ((levSpec u v :: colDists u v xs).getLastD d) = levSpec u (xs.reverse ++ v)
  | [], v, d => by simp [colDists]
  | x :: xs, v, d => by
    rw [colDists, List.getLastD_cons, colDists_getLastD u xs (x :: v),
      List.reverse_cons, List.append_assoc, List.singleton_append]

theorem levNextRow_colDists (c : Char) : (xs u v : List Char) →
    levNextRow c xs (levSpec u v :: colDists u v xs) (levSpec (c :: u) v) =
      colDists (c :: u) v xs
  | [], u, v => rfl
  | x :: xs, u, v => by
    rw [colDists, levNextRow]
    rw [show (if c = x then levSpec u v
        else 1 + minNat3 (levSpec u v) (levSpec (c :: u) v) (levSpec u (x :: v))) =
        levSpec (c :: u) (x :: v) from (levSpec_cons_cons c x u v).symm]
    rw [levNextRow_colDists c xs u (x :: v), colDists]

theorem levGo_colDists (a : List Char) : (bs u : List Char) →
    levGo a bs u.length (levSpec u [] :: colDists u [] a) =
      levSpec (bs.reverse ++ u) [] :: colDists (bs.reverse ++ u) [] a
  | [], u => by simp [levGo]
  | c :: bs, u => by
    rw [levGo]
    have hc : u.length + 1 = levSpec (c :: u) [] := by
      rw [levSpec_nil_right, List.length_cons]
    nth_rewrite 2 [hc]
    nth_rewrite 2 [hc]
    rw [levNextRow_colDists c a u []]
    have ih := levGo_colDists a bs (c :: u)
    rw [List.length_cons] at ih
    rw [ih, List.reverse_cons, List.append_assoc, List.singleton_append]

/-- The iterative DP agrees with the recursive edit distance. -/
theorem levenshteinDistance_eq_levSpec (a b : String) :
    levenshteinDistance a b = levSpec a.data b.data := by
  rw [levenshteinDistance]
  rw [show List.range (a.data.length + 1) =
      levSpec ([] : List Char) [] :: colDists [] [] a.data from by
    rw [List.range_eq_range', colDists_nil_u, List.range'_succ,
      levSpec_nil_left]
    rfl]
  rw [show (0 : Nat) = ([] : List Char).length from rfl,
    levGo_colDists a.data b.data []]
  rw [colDists_getLastD, List.append_nil, List.append_nil]
  rw [levSpec_reverse, levSpec_comm]

/-! Characterization of findClosestKeyword. -/

theorem fckGo_closest_some (input : String) :
    ∀ (ks : List String) (m : Option Nat) (c : String),
    (fckGo input ks m (some c)).isSome = true
  | [], _, _ => rfl
  | k :: ks, m, c => by
    simp only [fckGo]
    split
    · exact fckGo_closest_some input ks _ _
    · exact fckGo_closest_some input ks _ _

theorem fckGo_none_of_far (input : String) :
    ∀ (ks : List String) (m : Option Nat) (c : Option String),
    (∀ k ∈ ks, ¬ kwDist input k ≤ 3) → fckGo input ks m c = c
  | [], _, _, _ => rfl
  | k :: ks, m, c, h => by
    simp only [fckGo]
    rw [decide_eq_false (h k (List.mem_cons_self k ks)), Bool.and_false,
      if_neg Bool.false_ne_true]
    exact fckGo_none_of_far input ks m c
      (fun j hj => h j (List.mem_cons_of_mem _ hj))

theorem fckGo_some_of_mem (input : String) :
    ∀ (ks : List String) (m : Option Nat) (c : Option String),
    (m.isSome = true → c.isSome = true) →
    (∃ k ∈ ks, kwDist input k ≤ 3) →
    (fckGo input ks m c).isSome = true
  | [], _, _, _, hex => by simp at hex
  | k :: ks, m, c, hinv, hex => by
    simp only [fckGo]
    by_cases hq : (ltOpt (kwDist input k) m && decide (kwDist input k ≤ 3)) = true
    · rw [if_pos hq]
      exact fckGo_closest_some input ks _ _
    · rw [if_neg hq]
      rcases hex with ⟨j, hj, hd3⟩
      rcases List.mem_cons.mp hj with rfl | hjks
      · cases hlo : ltOpt (kwDist input j) m with
        | true => exact absurd (by simp [hlo, hd3]) hq
        | false =>
          cases m with
          | none => simp [ltOpt] at hlo
          | some n =>
            have hc := hinv rfl
            cases c with
            | none => simp at hc
            | some c => exact fckGo_closest_some input ks _ _
      · exact fckGo_some_of_mem input ks m c hinv ⟨j, hjks, hd3⟩

theorem fckGo_tail_fixed (input : String) :
    ∀ (ks : List String) (m : Nat) (c : String),
    (∀ j ∈ ks, ¬ kwDist input j < m) →
    fckGo input ks (some m) (some c) = some c
  | [], _, _, _ => rfl
  | k :: ks, m, c, h => by
    simp only [fckGo, ltOpt,
      decide_eq_false (h k (List.mem_cons_self k ks)), Bool.false_and,
      Bool.false_eq_true, if_false]
    exact fckGo_tail_fixed input ks m c
      (fun j hj => h j (List.mem_cons_of_mem _ hj))

theorem fckGo_first_min (input k : String) (suf : List String)
    (h3 : kwDist input k ≤ 3) :
    ∀ (pre : List String) (m : Option Nat) (c : Option String),
    (∀ j ∈ pre, kwDist input k < kwDist input j) →
    (∀ n, m = some n → kwDist input k < n) →
    fckGo input (pre ++ k :: suf) m c =
      fckGo input suf (some (kwDist input k)) (some k)
  | [], m, c, hpre, hm => by
    simp only [List.nil_append, fckGo]
    rw [if_pos]
    cases m with
    | none => simp [ltOpt, h3]
    | some n => simp [ltOpt, h3, hm n rfl]
  | j :: pre, m, c, hpre, hm => by
    simp only [List.cons_append, fckGo]
    by_cases hq : (ltOpt (kwDist input j) m && decide (kwDist input j ≤ 3)) = true
    · rw [if_pos hq]
      exact fckGo_first_min input k suf h3 pre (some (kwDist input j)) (some j)
        (fun i hi => hpre i (List.mem_cons_of_mem _ hi))
        (fun n hn => by cases hn; exact hpre j (List.mem_cons_self j pre))
    · rw [if_neg hq]
      exact fckGo_first_min input k suf h3 pre m c
        (fun i hi => hpre i (List.mem_cons_of_mem _ hi)) hm

/-- C5: the keyword suggester computes the classic dynamic-programming
Levenshtein edit distance case-insensitively (lowerStr on both sides)
between the unknown keyword and every candidate; it returns a suggestion
iff some candidate is at distance at most 3 (so a keyword at distance 4
or more from every candidate yields none, hence no suggestion
diagnostic); and when several candidates share the minimum qualifying
distance the first one in candidate-list order wins (checkKeywordSpelling
passes elementKeywords ++ viewKeywords, element types before view
types). -/
theorem keyword_suggestion_levenshtein :
    (∀ a b : String, levenshteinDistance a b = levSpec a.data b.data) ∧
    (∀ (input : String) (ks : List String),
      (findClosestKeyword input ks).isSome = true ↔
        ∃ k ∈ ks, levenshteinDistance (lowerStr input) (lowerStr k) ≤ 3) ∧
    (∀ (input k : String) (pre suf : List String),
      levenshteinDistance (lowerStr input) (lowerStr k) ≤ 3 →
      (∀ j ∈ pre, levenshteinDistance (lowerStr input) (lowerStr k) <
        levenshteinDistance (lowerStr input) (lowerStr j)) →
      (∀ j ∈ suf, levenshteinDistance (lowerStr input) (lowerStr k) ≤
        levenshteinDistance (lowerStr input) (lowerStr j)) →
      findClosestKeyword input (pre ++ k :: suf) = some k) := by
  refine ⟨levenshteinDistance_eq_levSpec,
    fun input ks => ⟨fun hs => ?_, fun hex => ?_⟩,
    fun input k pre suf h3 hpre hsuf => ?_⟩
  · by_contra hno
    push_neg at hno
    rw [findClosestKeyword,
      fckGo_none_of_far input ks none none
        (fun j hj => Nat.not_le.mpr (hno j hj))] at hs
    simp at hs
  · exact fckGo_some_of_mem input ks none none (fun h => h) hex
  · rw [findClosestKeyword,
      fckGo_first_min input k suf h3 pre none none hpre
        (fun n hn => Option.noConfusion hn)]
    exact fckGo_tail_fixed input suf (kwDist input k) k
      (fun j hj => Nat.not_lt.mpr (hsuf j hj))

set_option maxRecDepth 4000 in
/-- Concrete instances of the three conjuncts: the DP distance at
"kitten"/"sitting"; a suggestion exists for "persn" (distance 1 to
person); for "contaner" the element keyword "container" is the first
minimizer and is returned, ahead of the identical view keyword. -/
theorem keyword_suggestion_levenshtein_witness :
    levenshteinDistance "kitten" "sitting" =
      levSpec "kitten".data "sitting".data ∧
    (findClosestKeyword "persn"
      (elementKeywords ++ viewKeywords)).isSome = true ∧
    findClosestKeyword "contaner"
      (["person", "softwareSystem", "softwaresystem"] ++ "container" ::
        (["component", "deploymentNode", "deploymentEnvironment",
          "infrastructureNode", "group"] ++ viewKeywords)) =
      some "container" :=
  ⟨keyword_suggestion_levenshtein.1 "kitten" "sitting",
    (keyword_suggestion_levenshtein.2.1 "persn"
      (elementKeywords ++ viewKeywords)).mpr
      ⟨"person", by decide, by decide⟩,
    keyword_suggestion_levenshtein.2.2 "contaner" "container"
      ["person", "softwareSystem", "softwaresystem"]
      (["component", "deploymentNode", "deploymentEnvironment",
        "infrastructureNode", "group"] ++ viewKeywords)
      (by decide) (by decide) (by decide)⟩

end XS
